import Mathlib

/-!
# uSAPI: the SAPI frame codec and command exchange of `uSAPI.c`

A shallow embedding of the protocol core of `src/uSAPI.c` (`zio_write`, `zio_read`,
`crc8_SD`, `sendAckNack`, `send_SAPIData`, `receive_SAPIData`, `send_SAPICommand`)
and of its hex string reader (`isHexDigit`, `hexCharToByte`, `hexStrToBA`), and
theorems about them.

Conventions of the embedding.

* A `BYTE *` is a total map `Mem` from index to cell; the pointer `p + k` is the pair
  of the map and the base index `k`.  Capacities (`g_output_buffer[512]`, the 300 byte
  arrays of `main`) are not tracked: an access beyond them is outside the model.
* A `BYTE` is a `Nat`; every conversion to `BYTE` the source performs on a value that
  may exceed 255 is written `% 256`.  The `int` byte counts (`data_len`, `packet_len`)
  and the `int` sequence number are `Nat`: the source never makes them negative.
* The serial device and the clock are explicit state: `World.now` is what `time(NULL)`
  returns, `World.script` is what the next `select`/`read` calls observe, `World.tx`
  collects the bytes handed to `write`, `World.wres` is what the next `write` calls
  return.  The clock advances only while `select` waits.
* Line 119 adds `(unsigned)time(NULL)` and `max_timeout` in 32-bit unsigned arithmetic
  and line 130 compares `(unsigned)time(NULL)` with the sum; the embedding adds and
  compares in `Int`.  The two agree as long as the clock and the deadlines stay in the
  range of `unsigned`, which `clockFits` states of a world; a timeout below minus the
  clock, which `-t` accepts, makes the sum of the program wrap and is outside it.
* The diagnostics printed on `stderr` (`debug_flag`, `printPacket`) and the messages
  printed on `stdout` are not modelled.
* The `while` loop of `hexStrToBA` is run with an explicit bound on the number of
  iterations; `none` says the loop has not ended within the bound.
-/

namespace USAPI

/-! ## Constants -/

abbrev SOF_CODE : Nat := 0x01
abbrev ACK_CODE : Nat := 0x06
abbrev NACK_CODE : Nat := 0x015
abbrev REQUEST_CODE : Nat := 0x00
abbrev RESPONSE_CODE : Nat := 0x01

abbrev RETCODE_OK : Int := 0
abbrev RETCODE_NOACK : Int := 1
abbrev RETCODE_INVALID_DATALEN : Int := 2
abbrev RETCODE_INVALID_CRC : Int := 3
abbrev RETCODE_INVALID_DATA : Int := 4
abbrev RETCODE_INVALID_SOF : Int := 5
abbrev RETCODE_INVALID_SOF_SIZE : Int := 6

abbrev ADDITIONAL_SIZE : Nat := 2
abbrev ADDITIONAL_HEADSIZE : Nat := 3

/-! ## Memory -/

/-- Memory behind a `BYTE *`: the cell at every index. -/
abbrev Mem := Nat → Nat

/-- The `n` cells of `m` starting at index `off`. -/
def window (m : Mem) (off n : Nat) : List Nat :=
  (List.range n).map (fun i => m (off + i))

/-- An array holding the bytes `bs` (cells past the end read as 0). -/
def ofList (bs : List Nat) : Mem := fun i => bs.getD i 0

/-- The assignment `m[i] = v`. -/
def poke (m : Mem) (i v : Nat) : Mem := fun j => if j = i then v else m j

/-- The call `memcpy(dst + d, src, n)`. -/
def memcpy (dst : Mem) (d : Nat) (src : Mem) (n : Nat) : Mem :=
  fun j => if d ≤ j ∧ j < d + n then src (j - d) else dst j

/-- The call `memmove(m + d, m + s, n)`: every destination cell receives the value
the source cell had before the call. -/
def memmove (m : Mem) (d s n : Nat) : Mem :=
  fun j => if d ≤ j ∧ j < d + n then m (s + (j - d)) else m j

/-- What a `read` that returns the bytes `bs` leaves in the buffer `m + pos`. -/
def store (m : Mem) (pos : Nat) (bs : List Nat) : Mem :=
  fun j => if pos ≤ j ∧ j < pos + bs.length then bs.getD (j - pos) 0 else m j

/-! ## The device, the clock and the globals -/

/-- What one iteration of the polling loop of `zio_read` observes at its `select`
call (and at the `read` that follows when `select` reports the device readable).
`dt` is the number of seconds by which `time(NULL)` has advanced when the iteration
is over. -/
inductive Poll where
  /-- The call to `select` returns a negative value. -/
  | selectErr
  /-- The call to `select` returns 0: nothing to read within its 100 ms. -/
  | idle (dt : Nat)
  /-- The call to `select` returns a positive value, `read` returns a negative one. -/
  | readErr
  /-- The call to `select` returns a positive value and the bytes `bs` are waiting
  on the device; `read` returns as many of them as it was asked for. -/
  | data (dt : Nat) (bs : List Nat)
deriving DecidableEq

/-- The globals of the program the protocol code uses, the clock and the device. -/
structure World where
  /-- The global `BYTE g_output_buffer[OUTPUT_BUFFER_SIZE]`. -/
  g_output_buffer : Mem
  /-- The global `int g_seq_number` (1 at program start; only ever incremented). -/
  g_seq_number : Nat
  /-- The global `static int max_timeout` (3 unless `-t` sets it). -/
  max_timeout : Int
  /-- The value `time(NULL)` returns. -/
  now : Nat
  /-- What the coming polls of the device observe, in order. -/
  script : List Poll
  /-- The values the coming `write` calls return (none left: the full count). -/
  wres : List Int
  /-- The bytes handed to `write` so far, in call order (whatever `write` returned). -/
  tx : List Nat

/-- The bytes the device still has to deliver, whatever their timing. -/
def stream : List Poll → List Nat
  | [] => []
  | Poll.data _ bs :: rest => bs ++ stream rest
  | _ :: rest => stream rest

/-! ## `zio_write` -/

/-- Source: `zio_write` (lines 87-100).  `size` is a `BYTE` parameter. -/
def zio_write (w : World) (buffer : Mem) (size : Nat) : Int × World :=
  let size := size % 256
  let result : Int := match w.wres with
    | [] => (size : Int)
    | r :: _ => r
  let w1 := { w with wres := w.wres.tail, tx := w.tx ++ window buffer 0 size }
  if result ≤ 0 then (-1, w1) else (result, w1)

/-! ## `zio_read` -/

/-- State of the polling loop of `zio_read` when it is left. -/
structure LoopRes where
  ret : Int
  now : Nat
  script : List Poll
  buf : Mem

/-- The `while (offset < size)` loop of `zio_read` (lines 124-150), entered with
`offset < size`; the loop condition is evaluated again after each iteration that
changes `offset`.  One element of the script is one iteration.  Bytes of a chunk
that `read` was not asked for stay on the device and are readable at once.  When
the script is exhausted the device stays silent: `select` keeps returning 0 until
the clock has passed `end_time`. -/
def zio_read_loop (end_time : Int) (size base : Nat) :
    List Poll → Nat → Nat → Mem → LoopRes
  | [], now, offset, buf =>
    ⟨offset, if (now : Int) > end_time then now else (end_time + 1).toNat, [], buf⟩
  | p :: rest, now, offset, buf =>
    if (now : Int) > end_time then ⟨offset, now, p :: rest, buf⟩
    else
      match p with
      | Poll.selectErr => ⟨0, now, rest, buf⟩
      | Poll.idle dt => zio_read_loop end_time size base rest (now + dt) offset buf
      | Poll.readErr => ⟨-1, now, rest, buf⟩
      | Poll.data dt bs =>
        let got := bs.take (size - offset)
        let left := bs.drop (size - offset)
        let buf1 := store buf (base + offset) got
        if offset + got.length < size then
          zio_read_loop end_time size base rest (now + dt) (offset + got.length) buf1
        else
          ⟨offset + got.length, now + dt,
            if left = [] then rest else Poll.data 0 left :: rest, buf1⟩

/-- Result of `zio_read`: the returned count, the world and the buffer. -/
structure ReadRes where
  ret : Int
  w : World
  buf : Mem

/-- Source: `zio_read` (lines 115-153), called as `zio_read(dev, buffer + base, size)`.
`size` is a `BYTE` parameter.  `end_time` is the sum of the clock and `max_timeout` in
`Int`, which is the 32-bit unsigned sum of line 119 in the worlds of `clockFits`. -/
def zio_read (w : World) (buffer : Mem) (base size : Nat) : ReadRes :=
  let size := size % 256
  let end_time : Int := (w.now : Int) + w.max_timeout
  if 0 < size then
    let r := zio_read_loop end_time size base w.script w.now 0 buffer
    ⟨r.ret, { w with now := r.now, script := r.script }, r.buf⟩
  else ⟨0, w, buffer⟩

/-! ## `crc8_SD` -/

/-- The `for` loop of `crc8_SD`: `ret = ret ^ buff[offset + i]` with `ret` a `BYTE`. -/
def crc8_loop (buff : Mem) (offset : Nat) : Nat → Nat → Nat → Nat
  | 0, _, ret => ret
  | n + 1, i, ret => crc8_loop buff offset n (i + 1) ((ret ^^^ buff (offset + i)) % 256)

/-- Source: `crc8_SD` (lines 155-167). -/
def crc8_SD (buff : Mem) (data_len offset : Nat) : Nat :=
  crc8_loop buff offset data_len 0 0xff

/-! ## `sendAckNack`, `send_SAPIData` -/

/-- Source: `sendAckNack` (lines 169-181).  `code` is a `BYTE` parameter. -/
def sendAckNack (w : World) (code : Nat) : World :=
  let b := poke w.g_output_buffer 0 (code % 256)
  (zio_write { w with g_output_buffer := b } b 1).2

/-- Source: `send_SAPIData` (lines 183-208).  `data_len` is an `int` in the source;
its callers pass a byte count. -/
def send_SAPIData (w : World) (buff : Mem) (data_len : Nat) (bHaveCallback : Bool) :
    World :=
  let packet_len0 := data_len + ADDITIONAL_SIZE
  let b0 := if bHaveCallback then
      poke w.g_output_buffer (data_len + ADDITIONAL_HEADSIZE) (w.g_seq_number % 256)
    else w.g_output_buffer
  let seq := if bHaveCallback then w.g_seq_number + 1 else w.g_seq_number
  let packet_len := if bHaveCallback then packet_len0 + 1 else packet_len0
  let b1 := poke b0 0 SOF_CODE
  let b2 := poke b1 1 (packet_len % 256)
  let b3 := poke b2 2 REQUEST_CODE
  let b4 := memcpy b3 ADDITIONAL_HEADSIZE buff data_len
  let b5 := poke b4 (packet_len + 1) (crc8_SD b4 packet_len 1)
  (zio_write { w with g_output_buffer := b5, g_seq_number := seq } b5 (packet_len + 2)).2

/-! ## `receive_SAPIData` -/

/-- Result of `receive_SAPIData`: the return code, the world, the caller's buffer
`receive_buff` and the caller's `*receive_len`. -/
structure RecvRes where
  ret : Int
  w : World
  buf : Mem
  len : Nat

/-- Source: `receive_SAPIData` (lines 210-255). -/
def receive_SAPIData (w : World) (receive_buff : Mem) (receive_len : Nat) : RecvRes :=
  let r1 := zio_read w receive_buff 0 2
  if r1.ret ≠ 2 then ⟨RETCODE_INVALID_SOF_SIZE, r1.w, r1.buf, receive_len⟩
  else if r1.buf 0 ≠ SOF_CODE then ⟨RETCODE_INVALID_SOF, r1.w, r1.buf, receive_len⟩
  else
    let packet_len := r1.buf 1
    let r2 := zio_read r1.w r1.buf 2 packet_len
    if r2.ret ≠ (packet_len : Int) then
      ⟨RETCODE_INVALID_DATALEN, sendAckNack r2.w NACK_CODE, r2.buf, receive_len⟩
    else if crc8_SD r2.buf packet_len 1 ≠ r2.buf (2 + packet_len - 1) then
      ⟨RETCODE_INVALID_CRC, sendAckNack r2.w NACK_CODE, r2.buf, receive_len⟩
    else
      -- `packet_len - 1` as the `size_t` argument of `memmove`, as the `BYTE` stored
      let n := (packet_len + 2 ^ 64 - 1) % 2 ^ 64
      ⟨RETCODE_OK, sendAckNack r2.w ACK_CODE, memmove r2.buf 0 2 n,
        (packet_len + 256 - 1) % 256⟩

/-! ## `send_SAPICommand` -/

/-- Result of `send_SAPICommand`: the return code, the world, the caller's response
buffer (`none` for `NULL`) and the caller's `*response_len`. -/
structure CmdRes where
  ret : Int
  w : World
  resp : Option Mem
  len : Nat

/-- The loop of `zio_read` (lines 124-150) when `buffer` is `NULL`: the returned count,
the clock and the polls left.  It goes as `zio_read_loop`, except that a `read` which
is handed the null pointer while the device is readable stores nothing and fails
(`EFAULT`), the waiting bytes staying on the device; so `offset` is still 0 when the
loop is left. -/
def zio_read_null_loop (end_time : Int) : List Poll → Nat → Int × Nat × List Poll
  | [], now => (0, if (now : Int) > end_time then now else (end_time + 1).toNat, [])
  | p :: rest, now =>
    if (now : Int) > end_time then (0, now, p :: rest)
    else
      match p with
      | Poll.selectErr => (0, now, rest)
      | Poll.idle dt => zio_read_null_loop end_time rest (now + dt)
      | Poll.readErr => (-1, now, rest)
      | Poll.data dt bs => (-1, now + dt, Poll.data 0 bs :: rest)

/-- The final `return receive_SAPIData(fd, cmd_response, response_len)` of
`send_SAPICommand`.  With `cmd_response == NULL` (and `response_len == NULL`, as `main`
calls it) the header read `zio_read(fd, NULL, 2)` of line 216 does not return 2 and
`receive_SAPIData` leaves at line 220, before it looks at `receive_buff[0]`. -/
def receive_into (w : World) (cmd_response : Option Mem) (response_len : Nat) :
    Option CmdRes :=
  match cmd_response with
  | none =>
    let r := zio_read_null_loop ((w.now : Int) + w.max_timeout) w.script w.now
    if r.1 ≠ 2 then
      some ⟨RETCODE_INVALID_SOF_SIZE, { w with now := r.2.1, script := r.2.2 }, none,
        response_len⟩
    else none
  | some buf =>
    let r := receive_SAPIData w buf response_len
    some ⟨r.ret, r.w, some r.buf, r.len⟩

/-- Source: `send_SAPICommand` (lines 257-287).  The local `ack` is a one-cell
buffer of its own; it is read only after `zio_read` has stored into it. -/
def send_SAPICommand (w : World) (cmd_buff : Mem) (data_len : Nat)
    (cmd_response : Option Mem) (response_len : Nat) (bcallback : Bool) :
    Option CmdRes :=
  if data_len > 0 then
    let w1 := send_SAPIData w cmd_buff data_len bcallback
    let a := zio_read w1 (fun _ => 0) 0 1
    if a.ret ≠ 1 ∨ a.buf 0 ≠ ACK_CODE then
      some ⟨RETCODE_NOACK, a.w, cmd_response, response_len⟩
    else
      match cmd_response with
      | none => some ⟨RETCODE_OK, a.w, none, response_len⟩
      | some _ => receive_into a.w cmd_response response_len
  else receive_into w cmd_response response_len

/-! ## `isHexDigit`, `hexCharToByte`, `hexStrToBA` -/

/-- Source: `isHexDigit` (lines 289-292).  A `char` is its code: `'0'` = 0x30,
`'9'` = 0x39, `'a'` = 0x61, `'f'` = 0x66, `'A'` = 0x41, `'F'` = 0x46.  A code above
0x7F, negative where `char` is signed, fails the three tests either way. -/
def isHexDigit (digit : Nat) : Bool :=
  (0x30 ≤ digit && digit ≤ 0x39) || (0x61 ≤ digit && digit ≤ 0x66)
    || (0x41 ≤ digit && digit ≤ 0x46)

/-- Source: `hexCharToByte` (lines 294-299).  The result is a `BYTE`. -/
def hexCharToByte (digit : Nat) : Nat :=
  if 0x41 ≤ digit ∧ digit ≤ 0x46 then (digit - 0x41 + 10) % 256
  else if 0x30 ≤ digit ∧ digit ≤ 0x39 then (digit - 0x30) % 256
  else (((digit : Int) - 0x61 + 10) % 256).toNat

/-- The variables of `hexStrToBA`: the index `i`, the `BYTE count` and the array `val`. -/
structure HexState where
  i : Nat
  count : Nat
  val : Mem

/-- One iteration of the `while` loop of `hexStrToBA` (lines 308-328), entered with
`i < strlen(hexStr)`.  `hexStr` holds the characters before the terminating NUL; the
messages printed on `stdout` are not modelled. -/
def hexStrToBA_step (hexStr : List Nat) (s : HexState) : HexState :=
  if hexStr.getD s.i 0 = 0x20 then { s with i := s.i + 1 }
  else if isHexDigit (hexStr.getD s.i 0) then
    if s.i + 1 < hexStr.length ∧ isHexDigit (hexStr.getD (s.i + 1) 0) then
      { i := s.i + 2, count := (s.count + 1) % 256,
        val := poke s.val s.count
          ((hexCharToByte (hexStr.getD s.i 0) * 16
            + hexCharToByte (hexStr.getD (s.i + 1) 0)) % 256) }
    else
      { i := s.i + 1, count := (s.count + 1) % 256,
        val := poke s.val s.count (hexCharToByte (hexStr.getD s.i 0)) }
  else s

/-- The `while (i < strlen(hexStr))` loop of `hexStrToBA`, run for at most `fuel`
evaluations of its condition; `none` when the loop has not been left by then. -/
def hexStrToBA_loop (hexStr : List Nat) : Nat → HexState → Option HexState
  | 0, _ => none
  | fuel + 1, s =>
    if s.i < hexStr.length then hexStrToBA_loop hexStr fuel (hexStrToBA_step hexStr s)
    else some s

/-- Source: `hexStrToBA` (lines 301-331): the returned count and the array `val`,
`none` when the function has not returned within `fuel` loop tests. -/
def hexStrToBA (fuel : Nat) (hexStr : List Nat) (val : Mem) : Option (Nat × Mem) :=
  (hexStrToBA_loop hexStr fuel ⟨0, 0, val⟩).map (fun s => (s.count, s.val))

/-! ## Vocabulary of the statements -/

/-- The checksum of the bytes `bs`: the running exclusive-or seeded with `0xFF`. -/
def xorAll (bs : List Nat) : Nat := bs.foldl (· ^^^ ·) 0xFF

/-- The sequence byte of an outbound frame: present iff sequencing is requested. -/
def seqBytes (sequenced : Bool) (c : Nat) : List Nat := if sequenced then [c % 256] else []

/-- The length field of the frame that carries `n` payload bytes. -/
def lengthField (n : Nat) (sequenced : Bool) : Nat := n + 2 + (if sequenced then 1 else 0)

/-- The frame of the wire format: start marker, length field, request type, payload,
optional sequence byte, checksum of everything after the start marker. -/
def wireFrame (payload : List Nat) (sequenced : Bool) (c : Nat) : List Nat :=
  [0x01, lengthField payload.length sequenced, 0x00] ++ payload ++ seqBytes sequenced c ++
    [xorAll ([lengthField payload.length sequenced, 0x00] ++ payload ++ seqBytes sequenced c)
      % 256]

/-- Polling the device for at most `B` more seconds delivers the bytes `bs`: the
coming polls are idle waits and chunks whose concatenation is `bs`, each of them
starting while the `B` seconds have not run out, with no failure among them.
(Nothing is asked of the device when `bs` is empty.) -/
def supplies : Int → List Poll → List Nat → Bool
  | _, [], bs => bs.isEmpty
  | B, Poll.idle dt :: s, bs =>
    bs.isEmpty || (decide (0 ≤ B) && supplies (B - dt) s bs)
  | B, Poll.data dt c :: s, bs =>
    bs.isEmpty ||
      (decide (0 ≤ B) && (bs.take c.length == c) && supplies (B - dt) s (bs.drop c.length))
  | _, _ :: _, bs => bs.isEmpty

/-- The bytes the device delivers to the polls that start while the clock has not
passed `end_time`, up to its first failure: what arrives before the deadline. -/
def arriving (end_time : Int) : Nat → List Poll → List Nat
  | _, [] => []
  | now, Poll.idle dt :: s =>
    if (now : Int) > end_time then [] else arriving end_time (now + dt) s
  | now, Poll.data dt bs :: s =>
    if (now : Int) > end_time then [] else bs ++ arriving end_time (now + dt) s
  | _, _ :: _ => []

/-- The transport fails within a read that still misses `n` bytes: `select` or `read`
returns a negative value at a poll that starts while the clock has not passed
`end_time` and before `n` more bytes have been delivered. -/
def failing (end_time : Int) : Nat → List Poll → Nat → Bool
  | _, [], _ => false
  | now, Poll.selectErr :: _, n => decide (0 < n) && !decide ((now : Int) > end_time)
  | now, Poll.readErr :: _, n => decide (0 < n) && !decide ((now : Int) > end_time)
  | now, Poll.idle dt :: s, n =>
    decide (0 < n) && !decide ((now : Int) > end_time) && failing end_time (now + dt) s n
  | now, Poll.data dt bs :: s, n =>
    decide (0 < n) && !decide ((now : Int) > end_time) && decide (bs.length < n)
      && failing end_time (now + dt) s (n - bs.length)

/-- The seconds the polls of a script take. -/
def elapsed : List Poll → Nat
  | [] => 0
  | Poll.idle dt :: s => dt + elapsed s
  | Poll.data dt _ :: s => dt + elapsed s
  | _ :: s => elapsed s

/-- The clock arithmetic of `zio_read` fits `unsigned` in the world `w`: the timeout is
not negative, and the clock at the end of the script, with `max_timeout + 1` more
seconds for each of the at most three reads of one exchange (a read of a silent device
ends one second after its deadline), stays below `2 ^ 32`.  Then `(unsigned)time(NULL)`
is the clock itself at every test of line 130, and the 32-bit sum of line 119 is the
sum of the clock and `max_timeout`. -/
def clockFits (w : World) : Bool :=
  decide (0 ≤ w.max_timeout) &&
    decide ((w.now : Int) + elapsed w.script + 3 * (w.max_timeout + 1) < 2 ^ 32)

/-- Consecutive sequenced `send_SAPIData` calls, one per payload of the list. -/
def sendSeq (w : World) : List (List Nat) → World
  | [] => w
  | p :: ps => sendSeq (send_SAPIData w (ofList p) p.length true) ps

/-- The character that writes the hex digit of value `v`, in upper or lower case. -/
def hexDigitChar (v : Nat) (upper : Bool) : Nat :=
  if v < 10 then 0x30 + v else if upper then 0x41 + (v - 10) else 0x61 + (v - 10)

/-- One item of a hex string: a byte written as two hex digits, or a value below 16
written as a lone hex digit; each digit in upper or lower case. -/
inductive HexItem where
  | two (b : Nat) (up1 up2 : Bool)
  | one (v : Nat) (up : Bool)

/-- The characters of an item. -/
def HexItem.chars : HexItem → List Nat
  | HexItem.two b up1 up2 => [hexDigitChar (b / 16) up1, hexDigitChar (b % 16) up2]
  | HexItem.one v up => [hexDigitChar v up]

/-- The byte an item stands for. -/
def HexItem.value : HexItem → Nat
  | HexItem.two b _ _ => b
  | HexItem.one v _ => v

/-- An item is well formed when its value fits its digits. -/
def HexItem.ok : HexItem → Bool
  | HexItem.two b _ _ => decide (b < 256)
  | HexItem.one v _ => decide (v < 16)

/-- The items written one after the other, separated by single spaces. -/
def hexLine : List HexItem → List Nat
  | [] => []
  | [t] => t.chars
  | t :: u :: rest => t.chars ++ 0x20 :: hexLine (u :: rest)

/-! ## Worlds of the worked examples -/

/-- A world at program start: zeroed output buffer, sequence number 1, timeout 3,
clock at 100, a device that behaves as `script`, writes that succeed. -/
def startWorld (script : List Poll) : World :=
  { g_output_buffer := fun _ => 0, g_seq_number := 1, max_timeout := 3, now := 100,
    script := script, wres := [], tx := [] }

/-- A caller's buffer filled with zeros. -/
def zeroMem : Mem := fun _ => 0

/-- A device that delivers one byte and then stays silent. -/
def oneByteWorld : World := startWorld [Poll.idle 1, Poll.data 1 [0x01], Poll.idle 5]

/-- A device that delivers a header announcing 7 bytes, 2 of them in time and the
rest only after the deadline of the body read. -/
def shortBodyWorld : World :=
  startWorld [Poll.data 0 [0x01], Poll.data 1 [0x07, 0x00], Poll.data 2 [0x05], Poll.idle 2,
    Poll.data 0 [0x01, 0x02, 0x03, 0x04, 0x05]]

/-- A device that answers a command with the NACK byte. -/
def nackWorld : World := startWorld [Poll.idle 1, Poll.data 0 [0x15, 0x01, 0x02]]

/-- The world at program start with the sequence number set to `c`. -/
def counterWorld (c : Nat) : World := { startWorld [] with g_seq_number := c }

/-- A device on which the first `read` fails. -/
def readErrWorld : World := startWorld [Poll.readErr, Poll.data 0 [0x06]]

/-- A device that delivers a header announcing 3 bytes and then fails in `select`. -/
def bodyErrWorld : World := startWorld [Poll.data 0 [0x01, 0x03, 0x00], Poll.selectErr]

/-- A transport on which the `write` of the command frame fails, while the device
acknowledges the command and answers with the frame `[0x01, 0x03, 0x00, 0x05, 0xF9]`. -/
def writeErrWorld : World :=
  { startWorld [Poll.data 0 [0x06, 0x01, 0x03, 0x00, 0x05, 0xF9]] with wres := [-1] }

/-- A device whose frame `[0x01, 0x03, 0x00, 0x05, 0xF9]` takes 7 seconds to arrive with
a timeout of 3: the header is complete after 4 seconds, the body 3 seconds later. -/
def slowFrameWorld : World :=
  startWorld [Poll.idle 3, Poll.data 1 [0x01, 0x03], Poll.idle 3, Poll.data 0 [0x00, 0x05, 0xF9]]

/-- A device that delivers one byte, fails in `select` and has one more byte. -/
def selectErrWorld : World :=
  startWorld [Poll.data 0 [0x07], Poll.selectErr, Poll.data 0 [0x08]]

/-- The items of the string `Aa 7 05`. -/
def sampleItems : List HexItem :=
  [HexItem.two 0xAA true false, HexItem.one 7 false, HexItem.two 0x05 false false]

/-! ## Lemmas -/

/-- Truncation to 8 bits commutes with exclusive-or. -/
theorem xor_mod_256 (a b : Nat) : (a ^^^ b) % 256 = (a % 256) ^^^ (b % 256) := by
  apply Nat.eq_of_testBit_eq
  intro i
  have h : (256 : Nat) = 2 ^ 8 := by norm_num
  rw [h]
  simp only [Nat.testBit_mod_two_pow, Nat.testBit_xor]
  by_cases hi : i < 8 <;> simp [hi]

theorem foldl_xor_mod (l : List Nat) (a : Nat) :
    l.foldl (· ^^^ ·) (a % 256) % 256 = l.foldl (· ^^^ ·) a % 256 := by
  induction l generalizing a with
  | nil => simp
  | cons b t ih =>
    simp only [List.foldl_cons]
    rw [← ih (a % 256 ^^^ b), ← ih (a ^^^ b)]
    congr 2
    rw [xor_mod_256, xor_mod_256 a b, Nat.mod_mod]

theorem window_succ (m : Mem) (off n : Nat) :
    window m off (n + 1) = m off :: window m (off + 1) n := by
  unfold window
  rw [List.range_succ_eq_map]
  simp only [List.map_cons, List.map_map, Nat.add_zero]
  congr 1
  apply List.map_congr_left
  intro i _
  simp only [Function.comp, Nat.succ_eq_add_one]
  congr 1
  omega

theorem window_zero (m : Mem) (off : Nat) : window m off 0 = [] := rfl

theorem window_length (m : Mem) (off n : Nat) : (window m off n).length = n := by
  simp [window]

theorem crc8_loop_eq (buff : Mem) (offset : Nat) :
    ∀ (n i ret : Nat), ret < 256 →
      crc8_loop buff offset n i ret
        = (window buff (offset + i) n).foldl (· ^^^ ·) ret % 256 := by
  intro n
  induction n with
  | zero => intro i ret h; simp [crc8_loop, window_zero]; omega
  | succ k ih =>
    intro i ret h
    rw [crc8_loop, ih (i + 1) _ (Nat.mod_lt _ (by norm_num)), window_succ, List.foldl_cons,
      foldl_xor_mod]
    rw [Nat.add_assoc]

/-- The checksum loop computes the seeded exclusive-or of the window, truncated to 8 bits. -/
theorem crc8_SD_eq (buff : Mem) (data_len offset : Nat) :
    crc8_SD buff data_len offset = xorAll (window buff offset data_len) % 256 := by
  unfold crc8_SD xorAll
  rw [crc8_loop_eq buff offset data_len 0 0xff (by norm_num)]
  simp

theorem store_nil (m : Mem) (pos : Nat) : store m pos [] = m := by
  funext j; simp [store]

theorem store_append (m : Mem) (pos : Nat) (a b : List Nat) :
    store (store m pos a) (pos + a.length) b = store m pos (a ++ b) := by
  funext j
  simp only [store, List.length_append, List.getD_eq_getElem?_getD]
  by_cases h1 : pos + a.length ≤ j ∧ j < pos + a.length + b.length
  · rw [if_pos h1, if_pos (by omega)]
    rw [List.getElem?_append_right (by omega)]
    congr 2
    omega
  · rw [if_neg h1]
    by_cases h2 : pos ≤ j ∧ j < pos + a.length
    · rw [if_pos h2, if_pos (by omega), List.getElem?_append_left (by omega)]
    · rw [if_neg h2, if_neg (by omega)]

theorem supplies_nil (B : Int) (s : List Poll) : supplies B s [] = true := by
  cases s with
  | nil => rfl
  | cons p t => cases p <;> simp [supplies]

theorem supplies_mono : ∀ (s : List Poll) (B B' : Int) (bs : List Nat),
    B ≤ B' → supplies B s bs = true → supplies B' s bs = true := by
  intro s
  induction s with
  | nil => intro B B' bs _ h; simpa [supplies] using h
  | cons p t ih =>
    intro B B' bs hB h
    cases p with
    | selectErr => simpa [supplies] using h
    | readErr => simpa [supplies] using h
    | idle dt =>
      simp only [supplies, Bool.or_eq_true, Bool.and_eq_true, decide_eq_true_eq] at h ⊢
      rcases h with h | ⟨h0, h1⟩
      · exact Or.inl h
      · exact Or.inr ⟨by omega, ih _ _ _ (by omega) h1⟩
    | data dt c =>
      simp only [supplies, Bool.or_eq_true, Bool.and_eq_true, decide_eq_true_eq] at h ⊢
      rcases h with h | ⟨⟨h0, hc⟩, h1⟩
      · exact Or.inl h
      · exact Or.inr ⟨⟨by omega, hc⟩, ih _ _ _ (by omega) h1⟩

/-- When the device supplies the missing bytes `xs` in time, the polling loop stores
them behind the bytes it already has, returns `size`, leaves what follows `xs` on the
device and takes exactly `xs` from the stream. -/
theorem loop_of_supplies (end_time : Int) (size base : Nat) :
    ∀ (script : List Poll) (now offset : Nat) (buf : Mem) (B : Int) (xs ys : List Nat),
      xs ≠ [] → offset + xs.length = size → (now : Int) + B ≤ end_time →
      supplies B script (xs ++ ys) = true →
      (zio_read_loop end_time size base script now offset buf).ret = (size : Int) ∧
      (zio_read_loop end_time size base script now offset buf).buf
        = store buf (base + offset) xs ∧
      supplies B (zio_read_loop end_time size base script now offset buf).script ys = true ∧
      stream script
        = xs ++ stream (zio_read_loop end_time size base script now offset buf).script := by
  intro script
  induction script with
  | nil =>
    intro now offset buf B xs ys hx _ _ h
    simp [supplies, hx] at h
  | cons p t ih =>
    intro now offset buf B xs ys hx hlen hB h
    cases p with
    | selectErr => simp [supplies, hx] at h
    | readErr => simp [supplies, hx] at h
    | idle dt =>
      simp only [supplies, Bool.or_eq_true, Bool.and_eq_true, decide_eq_true_eq,
        List.isEmpty_eq_true, List.append_eq_nil, hx, false_and, false_or] at h
      obtain ⟨h0, h1⟩ := h
      have hnow : ¬ ((now : Int) > end_time) := by omega
      simp only [zio_read_loop, hnow, if_false]
      have := ih (now + dt) offset buf (B - dt) xs ys hx hlen (by push_cast; omega) h1
      obtain ⟨a, b, c, d⟩ := this
      refine ⟨a, b, supplies_mono _ _ _ _ (by omega) c, ?_⟩
      simpa [stream] using d
    | data dt c =>
      simp only [supplies, Bool.or_eq_true, Bool.and_eq_true, decide_eq_true_eq,
        List.isEmpty_eq_true, List.append_eq_nil, hx, false_and, false_or, beq_iff_eq] at h
      obtain ⟨⟨h0, hc⟩, h1⟩ := h
      have hnow : ¬ ((now : Int) > end_time) := by omega
      have hsplit : xs ++ ys = c ++ (xs ++ ys).drop c.length := by
        conv_lhs => rw [← List.take_append_drop c.length (xs ++ ys), hc]
      simp only [zio_read_loop, hnow, if_false]
      have hso : size - offset = xs.length := by omega
      rw [hso]
      rcases List.append_eq_append_iff.mp hsplit with ⟨a', ha, hy⟩ | ⟨c', hc', ht⟩
      · -- the chunk covers what is still missing
        have hgot : c.take xs.length = xs := by rw [ha]; simp
        have hleft : c.drop xs.length = a' := by rw [ha]; simp
        rw [hgot, hleft]
        have hnot : ¬ (offset + xs.length < size) := by omega
        simp only [hnot, if_false]
        refine ⟨by omega, trivial, ?_, ?_⟩
        · by_cases hl : a' = []
          · subst hl
            simp only [if_true]
            simp only [List.nil_append] at hy
            rw [hy]
            exact supplies_mono _ _ _ _ (by omega) h1
          · simp only [hl, if_false]
            rw [hy]
            simp only [supplies, Bool.or_eq_true, Bool.and_eq_true, decide_eq_true_eq,
              beq_iff_eq]
            refine Or.inr ⟨⟨h0, by simp⟩, ?_⟩
            simp only [List.drop_left]
            exact supplies_mono _ _ _ _ (by omega) h1
        · by_cases hl : a' = []
          · subst hl
            simp only [if_true, stream]
            simp at ha
            rw [ha]
          · simp only [hl, if_false, stream]
            rw [ha, List.append_assoc]
      · -- the chunk is shorter than what is still missing
        by_cases hc0 : c' = []
        · subst hc0
          simp only [List.append_nil] at hc'
          simp only [List.nil_append] at ht
          subst hc'
          have hnot : ¬ (offset + xs.length < size) := by omega
          simp only [List.take_length, List.drop_length, hnot, if_false, if_true]
          refine ⟨by omega, trivial, ?_, by simp [stream]⟩
          rw [ht] at h1
          exact supplies_mono _ _ _ _ (by omega) h1
        · have hlt : c.length < xs.length := by
            rw [hc']; simp; exact List.length_pos.mpr hc0
          have hgot : c.take xs.length = c := List.take_of_length_le (by omega)
          rw [hgot]
          have hyes : offset + c.length < size := by omega
          simp only [hyes, if_true]
          rw [ht] at h1
          have := ih (now + dt) (offset + c.length) (store buf (base + offset) c) (B - dt)
            c' ys hc0 (by rw [hc'] at hlen; simp at hlen; omega) (by push_cast; omega) h1
          obtain ⟨r1, r2, r3, r4⟩ := this
          refine ⟨r1, ?_, supplies_mono _ _ _ _ (by omega) r3, ?_⟩
          · rw [r2, ← Nat.add_assoc, store_append, hc']
          · simp only [stream]
            rw [r4, hc', List.append_assoc]

theorem window_ext (m : Mem) (off n : Nat) (l : List Nat) (hl : l.length = n)
    (h : ∀ i, i < n → m (off + i) = l.getD i 0) : window m off n = l := by
  apply List.ext_getElem
  · simp [window, hl]
  · intro i h1 h2
    simp only [window, List.getElem_map, List.getElem_range]
    rw [h i (by simpa [window] using h1)]
    simp [List.getD_eq_getElem?_getD, List.getElem?_eq_getElem h2]

/-- A `zio_read` touches neither the written bytes nor the globals. -/
theorem zio_read_frame (w : World) (buf : Mem) (base size : Nat) :
    (zio_read w buf base size).w.tx = w.tx ∧
    (zio_read w buf base size).w.wres = w.wres ∧
    (zio_read w buf base size).w.max_timeout = w.max_timeout ∧
    (zio_read w buf base size).w.g_seq_number = w.g_seq_number ∧
    (zio_read w buf base size).w.g_output_buffer = w.g_output_buffer := by
  unfold zio_read
  by_cases h : 0 < size % 256 <;> simp [h]

/-- When the device supplies `size` bytes within the timeout, `zio_read` returns `size`
and stores them. -/
theorem zio_read_of_supplies (w : World) (buf : Mem) (base size : Nat) (B : Int)
    (xs ys : List Nat) (hlen : xs.length = size) (hsize : size < 256)
    (hB : B ≤ w.max_timeout) (h : supplies B w.script (xs ++ ys) = true) :
    (zio_read w buf base size).ret = (size : Int) ∧
    (zio_read w buf base size).buf = store buf base xs ∧
    supplies B (zio_read w buf base size).w.script ys = true ∧
    stream w.script = xs ++ stream (zio_read w buf base size).w.script := by
  unfold zio_read
  have hmod : size % 256 = size := Nat.mod_eq_of_lt hsize
  rw [hmod]
  by_cases h0 : 0 < size
  · simp only [h0, if_true]
    have hx : xs ≠ [] := by
      intro e; subst e; simp at hlen; omega
    have := loop_of_supplies ((w.now : Int) + w.max_timeout) size base w.script w.now 0 buf B
      xs ys hx (by omega) (by omega) h
    simpa using this
  · have hz : size = 0 := by omega
    subst hz
    have hx : xs = [] := List.length_eq_zero.mp hlen
    subst hx
    simp only [Nat.lt_irrefl, if_false]
    refine ⟨rfl, (store_nil _ _).symm, ?_, by simp⟩
    simpa using h

/-- The world after `zio_write`, whatever `write` returns. -/
theorem zio_write_snd (w : World) (buffer : Mem) (size : Nat) :
    (zio_write w buffer size).2
      = { w with wres := w.wres.tail, tx := w.tx ++ window buffer 0 (size % 256) } := by
  unfold zio_write
  simp only []
  split <;> rfl

theorem sendAckNack_tx (w : World) (code : Nat) :
    (sendAckNack w code).tx = w.tx ++ [code % 256] := by
  simp only [sendAckNack, zio_write_snd]
  rfl

theorem sendAckNack_frame (w : World) (code : Nat) :
    (sendAckNack w code).script = w.script ∧ (sendAckNack w code).now = w.now ∧
    (sendAckNack w code).max_timeout = w.max_timeout ∧
    (sendAckNack w code).g_seq_number = w.g_seq_number := by
  simp [sendAckNack, zio_write_snd]

theorem store_in (m : Mem) (pos : Nat) (l : List Nat) (j : Nat)
    (h1 : pos ≤ j) (h2 : j < pos + l.length) : store m pos l j = l.getD (j - pos) 0 := by
  simp [store, h1, h2]

theorem store_out (m : Mem) (pos : Nat) (l : List Nat) (j : Nat)
    (h : j < pos ∨ pos + l.length ≤ j) : store m pos l j = m j := by
  have : ¬ (pos ≤ j ∧ j < pos + l.length) := by omega
  simp [store, this]

theorem window_store_take (m : Mem) (pos : Nat) (l : List Nat) (n : Nat)
    (hn : n ≤ l.length) : window (store m pos l) pos n = l.take n := by
  apply window_ext
  · simp; omega
  · intro i hi
    rw [store_in _ _ _ _ (by omega) (by omega)]
    simp only [List.getD_eq_getElem?_getD, Nat.add_sub_cancel_left]
    rw [List.getElem?_take_of_lt hi]

theorem window_memmove (m : Mem) (s n : Nat) :
    window (memmove m 0 s n) 0 n = window m s n := by
  apply window_ext
  · simp [window]
  · intro i hi
    simp [memmove, hi, window, List.getD_eq_getElem?_getD, List.getElem?_map,
      List.getElem?_range hi]

theorem window_add (m : Mem) (off a b : Nat) :
    window m off (a + b) = window m off a ++ window m (off + a) b := by
  induction a generalizing off with
  | zero => simp [window_zero]
  | succ k ih =>
    rw [show k + 1 + b = (k + b) + 1 by omega, window_succ, window_succ, ih]
    simp only [List.cons_append]
    congr 3
    omega

theorem window_congr (m m' : Mem) (off off' n : Nat)
    (h : ∀ i, i < n → m (off + i) = m' (off' + i)) : window m off n = window m' off' n := by
  unfold window
  apply List.map_congr_left
  intro i hi
  exact h i (List.mem_range.mp hi)

theorem window_ofList (l : List Nat) : window (ofList l) 0 l.length = l := by
  apply window_ext _ _ _ _ rfl
  intro i _
  simp [ofList]

theorem window_one (m : Mem) (off : Nat) : window m off 1 = [m off] := by
  rw [window_succ, window_zero]

theorem poke_same (m : Mem) (i v : Nat) : poke m i v i = v := by simp [poke]

theorem poke_ne (m : Mem) (i v j : Nat) (h : j ≠ i) : poke m i v j = m j := by
  simp [poke, h]

theorem memcpy_in (dst : Mem) (d : Nat) (src : Mem) (n j : Nat) (h1 : d ≤ j)
    (h2 : j < d + n) : memcpy dst d src n j = src (j - d) := by
  simp [memcpy, h1, h2]

theorem memcpy_out (dst : Mem) (d : Nat) (src : Mem) (n j : Nat) (h : j < d ∨ d + n ≤ j) :
    memcpy dst d src n j = dst j := by
  have : ¬ (d ≤ j ∧ j < d + n) := by omega
  simp [memcpy, this]

/-- The cells `0 .. 2 + n` of the output buffer once `send_SAPIData` has stored the
header and copied the payload. -/
theorem header_window (g buff : Mem) (n L : Nat) :
    window (memcpy (poke (poke (poke g 0 1) 1 L) 2 0) 3 buff n) 0 (3 + n)
      = 1 :: L :: 0 :: window buff 0 n := by
  rw [window_add]
  show _ = [1, L, 0] ++ window buff 0 n
  congr 1
  apply window_congr
  intro i hi
  rw [memcpy_in _ _ _ _ _ (by omega) (by omega)]
  congr 1
  omega

/-- The bytes `send_SAPIData` hands to `write` for a payload of at most 250 bytes. -/
theorem send_SAPIData_tx (w : World) (buff : Mem) (n : Nat) (sequenced : Bool)
    (hn : n ≤ 250) :
    (send_SAPIData w buff n sequenced).tx
      = w.tx ++ wireFrame (window buff 0 n) sequenced w.g_seq_number := by
  have hwl : (window buff 0 n).length = n := window_length _ _ _
  cases sequenced with
  | false =>
    simp only [send_SAPIData, zio_write_snd, wireFrame, lengthField, seqBytes, hwl,
      Bool.false_eq_true, if_false, List.append_nil, Nat.add_zero, SOF_CODE, REQUEST_CODE,
      ADDITIONAL_SIZE, ADDITIONAL_HEADSIZE]
    congr 1
    have h1 : (n + 2 + 2) % 256 = (3 + n) + 1 := by omega
    have hL : (n + 2) % 256 = n + 2 := by omega
    rw [h1, hL, window_add, crc8_SD_eq]
    have hw : window (poke (memcpy (poke (poke (poke w.g_output_buffer 0 1) 1 (n + 2)) 2 0) 3
        buff n) (n + 2 + 1) (xorAll (window (memcpy (poke (poke (poke w.g_output_buffer 0 1) 1
        (n + 2)) 2 0) 3 buff n) 1 (n + 2)) % 256)) 0 (3 + n)
        = window (memcpy (poke (poke (poke w.g_output_buffer 0 1) 1 (n + 2)) 2 0) 3 buff n)
          0 (3 + n) := by
      apply window_congr
      intro i hi
      rw [poke_ne _ _ _ _ (by omega)]
    rw [hw, header_window]
    have hx : window (memcpy (poke (poke (poke w.g_output_buffer 0 1) 1 (n + 2)) 2 0) 3
        buff n) 1 (n + 2) = (n + 2) :: 0 :: window buff 0 n := by
      have := header_window w.g_output_buffer buff n (n + 2)
      rw [show 3 + n = (n + 2) + 1 by omega, window_succ] at this
      simpa using (List.cons.inj this).2
    rw [hx]
    simp only [List.cons_append, List.nil_append, List.cons.injEq, true_and]
    rw [window_one, show 0 + (3 + n) = n + 2 + 1 by omega, poke_same]
  | true =>
    simp only [send_SAPIData, zio_write_snd, wireFrame, lengthField, seqBytes, hwl,
      if_true, SOF_CODE, REQUEST_CODE, ADDITIONAL_SIZE, ADDITIONAL_HEADSIZE]
    congr 1
    have h1 : (n + 2 + 1 + 2) % 256 = (3 + n) + 1 + 1 := by omega
    have hL : (n + 2 + 1) % 256 = n + 2 + 1 := by omega
    rw [h1, hL, window_add, window_add, crc8_SD_eq]
    have hseq : memcpy (poke (poke (poke (poke w.g_output_buffer (n + 3)
        (w.g_seq_number % 256)) 0 1) 1 (n + 2 + 1)) 2 0) 3 buff n (3 + n)
        = w.g_seq_number % 256 := by
      rw [memcpy_out _ _ _ _ _ (by omega), poke_ne _ _ _ _ (by omega),
        poke_ne _ _ _ _ (by omega), poke_ne _ _ _ _ (by omega),
        show 3 + n = n + 3 by omega, poke_same]
    have hx : window (memcpy (poke (poke (poke (poke w.g_output_buffer (n + 3)
        (w.g_seq_number % 256)) 0 1) 1 (n + 2 + 1)) 2 0) 3 buff n) 1 (n + 2 + 1)
        = (n + 2 + 1) :: 0 :: window buff 0 n ++ [w.g_seq_number % 256] := by
      have := header_window (poke w.g_output_buffer (n + 3) (w.g_seq_number % 256)) buff n
        (n + 2 + 1)
      rw [show 3 + n = (n + 2) + 1 by omega, window_succ] at this
      rw [window_add, window_one, show 1 + (n + 2) = 3 + n by omega, hseq]
      have h2 := (List.cons.inj this).2
      simp only [Nat.zero_add] at h2
      rw [h2]
    have hw : ∀ v, window (poke (memcpy (poke (poke (poke (poke w.g_output_buffer (n + 3)
        (w.g_seq_number % 256)) 0 1) 1 (n + 2 + 1)) 2 0) 3 buff n) (n + 2 + 1 + 1) v)
        0 (3 + n) = 1 :: (n + 2 + 1) :: 0 :: window buff 0 n := by
      intro v
      rw [← header_window (poke w.g_output_buffer (n + 3) (w.g_seq_number % 256)) buff n
        (n + 2 + 1)]
      apply window_congr
      intro i hi
      rw [poke_ne _ _ _ _ (by omega)]
    rw [hw, hx, window_one, window_one, poke_ne _ _ _ _ (by omega),
      show 0 + (3 + n) = 3 + n by omega, hseq,
      show 0 + (3 + n + 1) = n + 2 + 1 + 1 by omega, poke_same]
    simp

/-- The seeded exclusive-or of bytes is a byte. -/
theorem xorAll_lt (l : List Nat) (h : ∀ b ∈ l, b < 256) : xorAll l < 256 := by
  unfold xorAll
  have key : ∀ (l : List Nat) (a : Nat), a < 256 → (∀ b ∈ l, b < 256) →
      l.foldl (· ^^^ ·) a < 256 := by
    intro l
    induction l with
    | nil => intro a ha _; simpa using ha
    | cons b t ih =>
      intro a ha hb
      simp only [List.foldl_cons]
      apply ih
      · have h8 : (256 : Nat) = 2 ^ 8 := by norm_num
        rw [h8]
        apply Nat.xor_lt_two_pow
        · rw [← h8]; exact ha
        · rw [← h8]; exact hb b (List.mem_cons_self _ _)
      · intro x hx
        exact hb x (List.mem_cons_of_mem _ hx)
  exact key l 0xFF (by norm_num) h

/-- The checksum test of `receive_SAPIData` for a frame `[0x01, L] ++ bs ++ [X]`. -/
theorem crc8_SD_ofList (L : Nat) (bs : List Nat) (hL : bs.length + 1 = L) :
    crc8_SD (ofList (L :: bs)) L 0 = xorAll (L :: bs) % 256 := by
  have hw := window_ofList (L :: bs)
  rw [show (L :: bs).length = L by simp; omega] at hw
  rw [crc8_SD_eq, hw]

/-- The polling loop returns no more than the bytes it had plus the bytes that arrive
before the deadline. -/
theorem loop_ret_le (end_time : Int) (size base : Nat) :
    ∀ (script : List Poll) (now offset : Nat) (buf : Mem), offset ≤ size →
      (zio_read_loop end_time size base script now offset buf).ret
        ≤ (offset : Int) + ((arriving end_time now script).length : Int) := by
  intro script
  induction script with
  | nil => intro now offset buf _; simp [zio_read_loop, arriving]
  | cons p t ih =>
    intro now offset buf hle
    by_cases hnow : (now : Int) > end_time
    · cases p <;> simp [zio_read_loop, arriving, hnow]
    · cases p with
      | selectErr => simp only [zio_read_loop, hnow, if_false, arriving]; omega
      | readErr => simp only [zio_read_loop, hnow, if_false, arriving]; omega
      | idle dt =>
        simp only [zio_read_loop, hnow, if_false, arriving]
        exact ih (now + dt) offset buf hle
      | data dt bs =>
        simp only [zio_read_loop, hnow, if_false, arriving, List.length_append,
          List.length_take]
        by_cases hlt : offset + min (size - offset) bs.length < size
        · simp only [hlt, if_true]
          have := ih (now + dt) (offset + min (size - offset) bs.length)
            (store buf (base + offset) (List.take (size - offset) bs)) (by omega)
          push_cast at this ⊢
          omega
        · simp only [hlt, if_false]
          push_cast
          omega

theorem zio_read_ret_le (w : World) (buf : Mem) (base size : Nat) :
    (zio_read w buf base size).ret
      ≤ ((arriving ((w.now : Int) + w.max_timeout) w.now w.script).length : Int) := by
  unfold zio_read
  by_cases h : 0 < size % 256
  · simp only [h, if_true]
    have := loop_ret_le ((w.now : Int) + w.max_timeout) (size % 256) base w.script w.now 0 buf
      (Nat.zero_le _)
    simpa using this
  · simp only [h, if_false]
    omega

/-- A one-byte read that returns 1 has stored the first byte that arrived. -/
theorem loop_one (end_time : Int) (base : Nat) :
    ∀ (script : List Poll) (now : Nat) (buf : Mem),
      (zio_read_loop end_time 1 base script now 0 buf).ret = 1 →
      (arriving end_time now script).head?
        = some ((zio_read_loop end_time 1 base script now 0 buf).buf base) := by
  intro script
  induction script with
  | nil => intro now buf h; simp [zio_read_loop] at h
  | cons p t ih =>
    intro now buf h
    by_cases hnow : (now : Int) > end_time
    · simp [zio_read_loop, hnow] at h
    · cases p with
      | selectErr => simp [zio_read_loop, hnow] at h
      | readErr => simp [zio_read_loop, hnow] at h
      | idle dt =>
        simp only [zio_read_loop, hnow, if_false, arriving] at h ⊢
        exact ih (now + dt) buf h
      | data dt bs =>
        cases bs with
        | nil =>
          simp only [zio_read_loop, hnow, if_false, arriving, List.take_nil, List.drop_nil,
            List.length_nil, Nat.add_zero, Nat.lt_one_iff, if_true, List.nil_append] at h ⊢
          exact ih (now + dt) _ h
        | cons b r =>
          simp [zio_read_loop, hnow, arriving, store]

theorem zio_read_one (w : World) (buf : Mem) (base : Nat)
    (h : (zio_read w buf base 1).ret = 1) :
    (arriving ((w.now : Int) + w.max_timeout) w.now w.script).head?
      = some ((zio_read w buf base 1).buf base) := by
  have := loop_one ((w.now : Int) + w.max_timeout) base w.script w.now buf
  simp only [zio_read, Nat.one_mod, Nat.lt_one_iff, Nat.zero_lt_one, if_true] at h ⊢
  exact this h

/-- The polling loop takes from the stream no more than the bytes it still misses. -/
theorem loop_consumes (end_time : Int) (size base : Nat) :
    ∀ (script : List Poll) (now offset : Nat) (buf : Mem), offset ≤ size →
      ∃ k, offset + k ≤ size ∧
        stream (zio_read_loop end_time size base script now offset buf).script
          = (stream script).drop k := by
  intro script
  induction script with
  | nil => intro now offset buf h; exact ⟨0, by omega, by simp [zio_read_loop, stream]⟩
  | cons p t ih =>
    intro now offset buf hle
    by_cases hnow : (now : Int) > end_time
    · exact ⟨0, by omega, by simp [zio_read_loop, hnow]⟩
    · cases p with
      | selectErr => exact ⟨0, by omega, by simp [zio_read_loop, hnow, stream]⟩
      | readErr => exact ⟨0, by omega, by simp [zio_read_loop, hnow, stream]⟩
      | idle dt =>
        obtain ⟨k, hk, hs⟩ := ih (now + dt) offset buf hle
        exact ⟨k, hk, by simpa [zio_read_loop, hnow, stream] using hs⟩
      | data dt bs =>
        simp only [zio_read_loop, hnow, if_false, List.length_take, stream]
        by_cases hlt : offset + min (size - offset) bs.length < size
        · simp only [hlt, if_true]
          have hmin : min (size - offset) bs.length = bs.length := by omega
          obtain ⟨k, hk, hs⟩ := ih (now + dt) (offset + min (size - offset) bs.length)
            (store buf (base + offset) (List.take (size - offset) bs)) (by omega)
          refine ⟨bs.length + k, by omega, ?_⟩
          rw [hs, List.drop_append_eq_append_drop]
          have h1 : List.drop (bs.length + k) bs = [] := List.drop_of_length_le (by omega)
          rw [h1, show bs.length + k - bs.length = k by omega]
          rfl
        · simp only [hlt, if_false]
          refine ⟨min (size - offset) bs.length, by omega, ?_⟩
          have hmin : min (size - offset) bs.length = size - offset := by omega
          rw [hmin, List.drop_append_eq_append_drop,
            show size - offset - bs.length = 0 by omega, List.drop_zero]
          by_cases hl : List.drop (size - offset) bs = []
          · simp [hl]
          · simp [hl, stream]

theorem zio_read_consumes (w : World) (buf : Mem) (base size : Nat) :
    ∃ k, k ≤ size % 256 ∧
      stream (zio_read w buf base size).w.script = (stream w.script).drop k := by
  unfold zio_read
  by_cases h : 0 < size % 256
  · simp only [h, if_true]
    obtain ⟨k, hk, hs⟩ := loop_consumes ((w.now : Int) + w.max_timeout) (size % 256) base
      w.script w.now 0 buf (Nat.zero_le _)
    exact ⟨k, by omega, hs⟩
  · simp only [h, if_false]
    exact ⟨0, by omega, rfl⟩

theorem send_SAPIData_frame (w : World) (buff : Mem) (n : Nat) (sequenced : Bool) :
    (send_SAPIData w buff n sequenced).script = w.script ∧
    (send_SAPIData w buff n sequenced).now = w.now ∧
    (send_SAPIData w buff n sequenced).max_timeout = w.max_timeout := by
  simp [send_SAPIData, zio_write_snd]

/-- The wire frame of a payload of bytes, with the checksum written as the plain
seeded exclusive-or. -/
theorem wireFrame_bytes (payload : List Nat) (sequenced : Bool) (c : Nat)
    (hlen : payload.length ≤ 250) (hbytes : ∀ b ∈ payload, b < 256) :
    wireFrame payload sequenced c
      = [0x01, lengthField payload.length sequenced, 0x00] ++ payload
          ++ seqBytes sequenced c
          ++ [([lengthField payload.length sequenced, 0x00] ++ payload
                ++ seqBytes sequenced c).foldl (· ^^^ ·) 0xFF] := by
  have hlt : xorAll ([lengthField payload.length sequenced, 0x00] ++ payload
      ++ seqBytes sequenced c) < 256 := by
    apply xorAll_lt
    intro b hb
    simp only [List.mem_append, List.mem_cons, List.mem_singleton, List.not_mem_nil,
      or_false] at hb
    rcases hb with ((hb | hb) | hb) | hb
    · rw [hb]; unfold lengthField; split <;> omega
    · rw [hb]; norm_num
    · exact hbytes b hb
    · unfold seqBytes at hb
      cases sequenced
      · simp at hb
      · simp at hb; rw [hb]; exact Nat.mod_lt _ (by norm_num)
  rw [wireFrame, Nat.mod_eq_of_lt hlt]
  rfl

/-- What `send_SAPIData` does to the sequence number. -/
theorem send_SAPIData_seq (w : World) (buff : Mem) (n : Nat) (sequenced : Bool) :
    (send_SAPIData w buff n sequenced).g_seq_number
      = if sequenced then w.g_seq_number + 1 else w.g_seq_number := by
  simp only [send_SAPIData, zio_write_snd]

theorem sendSeq_append (w : World) (ps : List (List Nat)) (p : List Nat) :
    sendSeq w (ps ++ [p]) = send_SAPIData (sendSeq w ps) (ofList p) p.length true := by
  induction ps generalizing w with
  | nil => rfl
  | cons q t ih => simp only [List.cons_append, sendSeq]; exact ih _

/-- After `k` sequenced sends the sequence number has grown by `k`. -/
theorem sendSeq_counter (w : World) (ps : List (List Nat)) :
    (sendSeq w ps).g_seq_number = w.g_seq_number + ps.length := by
  induction ps generalizing w with
  | nil => rfl
  | cons q t ih =>
    simp only [sendSeq, List.length_cons]
    rw [ih, send_SAPIData_seq]
    simp only [if_true]
    omega

/-- When the transport fails within the read, the polling loop returns 0 (`select`
failed) or -1 (`read` failed). -/
theorem loop_failing (end_time : Int) (size base : Nat) :
    ∀ (script : List Poll) (now offset : Nat) (buf : Mem), offset < size →
      failing end_time now script (size - offset) = true →
      (zio_read_loop end_time size base script now offset buf).ret = 0 ∨
      (zio_read_loop end_time size base script now offset buf).ret = -1 := by
  intro script
  induction script with
  | nil => intro now offset buf _ h; simp [failing] at h
  | cons p t ih =>
    intro now offset buf hlt h
    cases p with
    | selectErr =>
      simp only [failing, Bool.and_eq_true, decide_eq_true_eq, Bool.not_eq_true',
        decide_eq_false_iff_not] at h
      simp [zio_read_loop, h.2]
    | readErr =>
      simp only [failing, Bool.and_eq_true, decide_eq_true_eq, Bool.not_eq_true',
        decide_eq_false_iff_not] at h
      simp [zio_read_loop, h.2]
    | idle dt =>
      simp only [failing, Bool.and_eq_true, decide_eq_true_eq, Bool.not_eq_true',
        decide_eq_false_iff_not] at h
      simp only [zio_read_loop, h.1.2, if_false]
      exact ih (now + dt) offset buf hlt h.2
    | data dt bs =>
      simp only [failing, Bool.and_eq_true, decide_eq_true_eq, Bool.not_eq_true',
        decide_eq_false_iff_not] at h
      obtain ⟨⟨⟨_, hnow⟩, hshort⟩, hrest⟩ := h
      have hgot : (List.take (size - offset) bs).length = bs.length := by
        simp; omega
      have hcont : offset + (List.take (size - offset) bs).length < size := by
        rw [hgot]; omega
      simp only [zio_read_loop, hnow, if_false, hcont, if_true]
      rw [hgot]
      apply ih (now + dt) (offset + bs.length) _ (by omega)
      rw [show size - (offset + bs.length) = size - offset - bs.length by omega]
      exact hrest

theorem zio_read_failing (w : World) (buf : Mem) (base size : Nat)
    (h : failing ((w.now : Int) + w.max_timeout) w.now w.script (size % 256) = true) :
    (zio_read w buf base size).ret = 0 ∨ (zio_read w buf base size).ret = -1 := by
  have hpos : 0 < size % 256 := by
    by_contra hc
    have hz : size % 256 = 0 := by omega
    rw [hz] at h
    cases hs : w.script with
    | nil => rw [hs] at h; simp [failing] at h
    | cons p t => rw [hs] at h; cases p <;> simp [failing] at h
  have := loop_failing ((w.now : Int) + w.max_timeout) (size % 256) base w.script w.now 0 buf
    hpos (by simpa using h)
  simpa [zio_read, hpos] using this

theorem zio_read_wres (w : World) (x : List Int) (buf : Mem) (base size : Nat) :
    zio_read { w with wres := x } buf base size
      = ⟨(zio_read w buf base size).ret, { (zio_read w buf base size).w with wres := x },
          (zio_read w buf base size).buf⟩ := by
  unfold zio_read
  simp only []
  split <;> rfl

theorem sendAckNack_wres (w : World) (x : List Int) (code : Nat) :
    sendAckNack { w with wres := x } code = { sendAckNack w code with wres := x.tail } := by
  simp [sendAckNack, zio_write_snd]

theorem send_SAPIData_wres (w : World) (x : List Int) (buff : Mem) (n : Nat)
    (sequenced : Bool) :
    send_SAPIData { w with wres := x } buff n sequenced
      = { send_SAPIData w buff n sequenced with wres := x.tail } := by
  simp [send_SAPIData, zio_write_snd]

/-- What `write` returns has no influence on `receive_SAPIData`. -/
theorem receive_SAPIData_wres (w : World) (x : List Int) (buf : Mem) (len : Nat) :
    (receive_SAPIData { w with wres := x } buf len).ret = (receive_SAPIData w buf len).ret ∧
    (receive_SAPIData { w with wres := x } buf len).buf = (receive_SAPIData w buf len).buf ∧
    (receive_SAPIData { w with wres := x } buf len).len = (receive_SAPIData w buf len).len ∧
    (receive_SAPIData { w with wres := x } buf len).w.tx
      = (receive_SAPIData w buf len).w.tx ∧
    (receive_SAPIData { w with wres := x } buf len).w.script
      = (receive_SAPIData w buf len).w.script := by
  simp only [receive_SAPIData, zio_read_wres, sendAckNack_wres]
  split
  · simp
  · split
    · simp
    · split
      · simp
      · split <;> simp

/-- What `write` returns has no influence on `send_SAPICommand`. -/
theorem send_SAPICommand_wres (w : World) (x : List Int) (cmd_buff : Mem) (data_len : Nat)
    (cmd_response : Option Mem) (response_len : Nat) (bcallback : Bool) :
    (send_SAPICommand { w with wres := x } cmd_buff data_len cmd_response response_len
        bcallback).map (fun r => (r.ret, r.len, r.w.tx, r.w.script))
      = (send_SAPICommand w cmd_buff data_len cmd_response response_len bcallback).map
          (fun r => (r.ret, r.len, r.w.tx, r.w.script)) := by
  have hrecv : ∀ (v : World) (y : List Int),
      (receive_into { v with wres := y } cmd_response response_len).map
          (fun r => (r.ret, r.len, r.w.tx, r.w.script))
        = (receive_into v cmd_response response_len).map
          (fun r => (r.ret, r.len, r.w.tx, r.w.script)) := by
    intro v y
    cases cmd_response with
    | none =>
      simp only [receive_into]
      split <;> rfl
    | some b =>
      obtain ⟨h1, _, h3, h4, h5⟩ := receive_SAPIData_wres v y b response_len
      simp only [receive_into, Option.map_some', h1, h3, h4, h5]
  unfold send_SAPICommand
  by_cases hpos : data_len > 0
  · simp only [hpos, if_true, send_SAPIData_wres, zio_read_wres]
    split
    · rfl
    · cases cmd_response with
      | none => rfl
      | some b => exact hrecv _ _
  · simp only [hpos, if_false]
    exact hrecv w x

/-- The sequence number is left alone by `receive_SAPIData`. -/
theorem receive_SAPIData_seq (w : World) (buf : Mem) (len : Nat) :
    (receive_SAPIData w buf len).w.g_seq_number = w.g_seq_number := by
  have h1 := (zio_read_frame w buf 0 2).2.2.2.1
  have h2 := (zio_read_frame (zio_read w buf 0 2).w (zio_read w buf 0 2).buf 2
    ((zio_read w buf 0 2).buf 1)).2.2.2.1
  unfold receive_SAPIData
  simp only []
  split
  · exact h1
  · split
    · exact h1
    · split
      · rw [(sendAckNack_frame _ _).2.2.2, h2, h1]
      · split
        · rw [(sendAckNack_frame _ _).2.2.2, h2, h1]
        · rw [(sendAckNack_frame _ _).2.2.2, h2, h1]

/-- When the transport does not fail within the read, the polling loop returns the
number of bytes it holds, has stored the bytes it took in arrival order behind those
it had, has taken exactly these bytes from the stream, and holds `size` bytes when that
many arrive before the deadline. -/
theorem loop_not_failing (end_time : Int) (size base : Nat) :
    ∀ (script : List Poll) (now offset : Nat) (buf : Mem), offset < size →
      failing end_time now script (size - offset) = false →
      ∃ k : Nat,
        (zio_read_loop end_time size base script now offset buf).ret = ((offset + k : Nat) : Int) ∧
        offset + k ≤ size ∧ k ≤ (stream script).length ∧
        (zio_read_loop end_time size base script now offset buf).buf
          = store buf (base + offset) ((stream script).take k) ∧
        stream (zio_read_loop end_time size base script now offset buf).script
          = (stream script).drop k ∧
        (size - offset ≤ (arriving end_time now script).length → offset + k = size) := by
  intro script
  induction script with
  | nil =>
    intro now offset buf hlt _
    refine ⟨0, by simp [zio_read_loop], by omega, by simp, ?_, by simp [zio_read_loop], ?_⟩
    · simp [zio_read_loop, store_nil]
    · simp [arriving]; omega
  | cons p t ih =>
    intro now offset buf hlt hf
    by_cases hnow : (now : Int) > end_time
    · refine ⟨0, by simp [zio_read_loop, hnow], by omega, by simp, ?_,
        by simp [zio_read_loop, hnow], ?_⟩
      · simp [zio_read_loop, hnow, store_nil]
      · cases p <;> simp [arriving, hnow] <;> omega
    · cases p with
      | selectErr =>
        have : size - offset > 0 := by omega
        simp [failing, hnow, this] at hf
      | readErr =>
        have : size - offset > 0 := by omega
        simp [failing, hnow, this] at hf
      | idle dt =>
        have hpos : 0 < size - offset := by omega
        simp only [failing, hpos, decide_True, hnow, decide_False, Bool.not_false,
          Bool.and_self, Bool.true_and] at hf
        obtain ⟨k, h1, h2, h3, h4, h5, h6⟩ := ih (now + dt) offset buf hlt hf
        refine ⟨k, ?_, h2, ?_, ?_, ?_, ?_⟩
        · simpa [zio_read_loop, hnow] using h1
        · simpa [stream] using h3
        · simpa [zio_read_loop, hnow, stream] using h4
        · simpa [zio_read_loop, hnow, stream] using h5
        · simpa [arriving, hnow] using h6
      | data dt bs =>
        have hpos : 0 < size - offset := by omega
        simp only [failing, hpos, decide_True, hnow, decide_False, Bool.not_false,
          Bool.and_self, Bool.true_and, Bool.and_eq_false_imp, decide_eq_true_eq] at hf
        by_cases hshort : bs.length < size - offset
        · have hrest := hf hshort
          have hgot : List.take (size - offset) bs = bs := List.take_of_length_le (by omega)
          have hcont : offset + bs.length < size := by omega
          obtain ⟨k, h1, h2, h3, h4, h5, h6⟩ := ih (now + dt) (offset + bs.length)
            (store buf (base + offset) bs) hcont
            (by rw [show size - (offset + bs.length) = size - offset - bs.length by omega]
                exact hrest)
          refine ⟨bs.length + k, ?_, by omega, ?_, ?_, ?_, ?_⟩
          · simp only [zio_read_loop, hnow, if_false, hgot, hcont, if_true]
            rw [h1]; congr 1; omega
          · simp [stream]; omega
          · simp only [zio_read_loop, hnow, if_false, hgot, hcont, if_true, stream]
            rw [h4, ← Nat.add_assoc, store_append, List.take_append]
          · simp only [zio_read_loop, hnow, if_false, hgot, hcont, if_true, stream]
            rw [h5, List.drop_append]
          · intro ha
            simp only [arriving, hnow, if_false, List.length_append] at ha
            have := h6 (by omega)
            omega
        · have hlen : (List.take (size - offset) bs).length = size - offset := by
            simp; omega
          have hstop : ¬ (offset + (List.take (size - offset) bs).length < size) := by
            rw [hlen]; omega
          refine ⟨size - offset, ?_, by omega, ?_, ?_, ?_, by intro _; omega⟩
          · simp only [zio_read_loop, hnow, if_false, hstop]
            rw [hlen]
            push_cast
            rfl
          · simp [stream]; omega
          · simp only [zio_read_loop, hnow, if_false, hstop, stream]
            rw [List.take_append_of_le_length (by omega)]
          · simp only [zio_read_loop, hnow, if_false, hstop, stream]
            rw [List.drop_append_of_le_length (by omega)]
            by_cases hl : List.drop (size - offset) bs = []
            · simp [hl]
            · simp [hl, stream]

/-- When the transport does not fail within the read, the polling loop returns what it
had plus what arrives before the deadline, capped at `size`. -/
theorem loop_ret_eq (end_time : Int) (size base : Nat) :
    ∀ (script : List Poll) (now offset : Nat) (buf : Mem), offset < size →
      failing end_time now script (size - offset) = false →
      (zio_read_loop end_time size base script now offset buf).ret
        = ((offset + min (size - offset) (arriving end_time now script).length : Nat) : Int) := by
  intro script
  induction script with
  | nil => intro now offset buf _ _; simp [zio_read_loop, arriving]
  | cons p t ih =>
    intro now offset buf hlt hf
    by_cases hnow : (now : Int) > end_time
    · cases p <;> simp [zio_read_loop, arriving, hnow]
    · have hpos : 0 < size - offset := by omega
      cases p with
      | selectErr => simp [failing, hnow, hpos] at hf
      | readErr => simp [failing, hnow, hpos] at hf
      | idle dt =>
        simp only [failing, hpos, decide_True, hnow, decide_False, Bool.not_false,
          Bool.and_self, Bool.true_and] at hf
        simp only [zio_read_loop, hnow, if_false, arriving]
        exact ih (now + dt) offset buf hlt hf
      | data dt bs =>
        simp only [failing, hpos, decide_True, hnow, decide_False, Bool.not_false,
          Bool.and_self, Bool.true_and, Bool.and_eq_false_imp, decide_eq_true_eq] at hf
        simp only [zio_read_loop, hnow, if_false, arriving, List.length_append,
          List.length_take]
        by_cases hshort : bs.length < size - offset
        · have hcont : offset + min (size - offset) bs.length < size := by omega
          simp only [hcont, if_true]
          have hmin : min (size - offset) bs.length = bs.length := by omega
          rw [hmin, ih (now + dt) (offset + bs.length) _ (by omega)
            (by rw [show size - (offset + bs.length) = size - offset - bs.length by omega]
                exact hf hshort)]
          congr 1
          omega
        · have hstop : ¬ (offset + min (size - offset) bs.length < size) := by omega
          simp only [hstop, if_false]
          push_cast
          omega

/-- What `receive_SAPIData` does when the header read has delivered `[0x01, L]` and the
body `bs ++ [X]` arrives within the timeout counted from the end of the header read. -/
theorem receive_of_body_supplies (w : World) (buf : Mem) (len : Nat) (L : Nat)
    (bs : List Nat) (X : Nat) (more : List Nat)
    (h2 : (zio_read w buf 0 2).ret = 2) (h0 : (zio_read w buf 0 2).buf 0 = 0x01)
    (h1 : (zio_read w buf 0 2).buf 1 = L) (hL : bs.length + 1 = L) (hL256 : L < 256)
    (hX : X = crc8_SD (ofList (L :: bs)) L 0)
    (hbody : supplies (zio_read w buf 0 2).w.max_timeout (zio_read w buf 0 2).w.script
      (bs ++ X :: more) = true) :
    (receive_SAPIData w buf len).ret = RETCODE_OK ∧
    window (receive_SAPIData w buf len).buf 0 bs.length = bs ∧
    (receive_SAPIData w buf len).len = bs.length := by
  subst hL
  obtain ⟨f1, f2, _, _⟩ := zio_read_of_supplies (zio_read w buf 0 2).w (zio_read w buf 0 2).buf
    2 (bs.length + 1) (zio_read w buf 0 2).w.max_timeout (bs ++ [X]) more (by simp) hL256
    (le_refl _) (by simpa using hbody)
  have hcrc : crc8_SD (zio_read (zio_read w buf 0 2).w (zio_read w buf 0 2).buf 2
      (bs.length + 1)).buf (bs.length + 1) 1
      = (zio_read (zio_read w buf 0 2).w (zio_read w buf 0 2).buf 2
          (bs.length + 1)).buf (2 + (bs.length + 1) - 1) := by
    have hleft : crc8_SD (zio_read (zio_read w buf 0 2).w (zio_read w buf 0 2).buf 2
        (bs.length + 1)).buf (bs.length + 1) 1 = xorAll ((bs.length + 1) :: bs) % 256 := by
      rw [crc8_SD_eq, window_succ, f2]
      congr 2
      rw [store_out _ _ _ _ (by omega), h1]
      congr 1
      rw [window_store_take _ _ _ _ (by simp)]
      simp
    have hright : (zio_read (zio_read w buf 0 2).w (zio_read w buf 0 2).buf 2
        (bs.length + 1)).buf (2 + (bs.length + 1) - 1) = X := by
      rw [f2, store_in _ _ _ _ (by omega) (by simp)]
      have : 2 + (bs.length + 1) - 1 - 2 = bs.length := by omega
      rw [this]
      simp [List.getD_eq_getElem?_getD]
    rw [hleft, hright, hX, crc8_SD_ofList _ _ rfl]
  have hn : (bs.length + 1 + 2 ^ 64 - 1) % 2 ^ 64 = bs.length := by omega
  have hlen : (bs.length + 1 + 256 - 1) % 256 = bs.length := by omega
  simp only [receive_SAPIData, h2, h0, h1, f1, hcrc, ne_eq, not_true_eq_false, if_false,
    hn, hlen, window_memmove]
  refine ⟨trivial, ?_, trivial⟩
  rw [f2, window_store_take _ _ _ _ (by simp)]
  simp

/-- Once the index is at or before a character that is neither a space nor a hex
digit, the loop of `hexStrToBA` is never left. -/
theorem hexStrToBA_loop_stuck (hexStr : List Nat) (j : Nat) (hj : j < hexStr.length)
    (hsp : hexStr.getD j 0 ≠ 0x20) (hhex : isHexDigit (hexStr.getD j 0) = false) :
    ∀ (fuel : Nat) (s : HexState), s.i ≤ j → hexStrToBA_loop hexStr fuel s = none := by
  intro fuel
  induction fuel with
  | zero => intro s _; rfl
  | succ n ih =>
    intro s hs
    have hlt : s.i < hexStr.length := by omega
    simp only [hexStrToBA_loop, hlt, if_true]
    apply ih
    unfold hexStrToBA_step
    by_cases h1 : hexStr.getD s.i 0 = 0x20
    · simp only [h1, if_true]
      have : s.i ≠ j := by intro e; rw [e] at h1; exact hsp h1
      omega
    · simp only [h1, if_false]
      by_cases h2 : isHexDigit (hexStr.getD s.i 0) = true
      · have hne : s.i ≠ j := by intro e; rw [e, hhex] at h2; exact absurd h2 (by decide)
        simp only [h2, if_true]
        by_cases h3 : s.i + 1 < hexStr.length ∧ isHexDigit (hexStr.getD (s.i + 1) 0) = true
        · have hne2 : s.i + 1 ≠ j := by
            intro e; rw [e, hhex] at h3; exact absurd h3.2 (by decide)
          simp only [h3, and_self, if_true]
          omega
        · simp only [h3, if_false]
          omega
      · simp only [h2, if_false]
        exact hs

theorem hexDigitChar_spec : ∀ v, v < 16 → ∀ up : Bool,
    isHexDigit (hexDigitChar v up) = true ∧ hexDigitChar v up ≠ 0x20 ∧
    hexCharToByte (hexDigitChar v up) = v := by
  decide

theorem getD_at (pre : List Nat) (x : Nat) (suf : List Nat) :
    (pre ++ x :: suf).getD pre.length 0 = x := by
  rw [List.getD_eq_getElem?_getD, List.getElem?_append_right (le_refl _)]
  simp

theorem getD_next (pre : List Nat) (x y : Nat) (suf : List Nat) :
    (pre ++ x :: y :: suf).getD (pre.length + 1) 0 = y := by
  have := getD_at (pre ++ [x]) y suf
  simpa using this

theorem poke_store (m : Mem) (pos v : Nat) (l : List Nat) :
    store (poke m pos v) (pos + 1) l = store m pos (v :: l) := by
  funext j
  simp only [store, poke, List.length_cons, List.getD_eq_getElem?_getD]
  by_cases h1 : pos + 1 ≤ j ∧ j < pos + 1 + l.length
  · rw [if_pos h1, if_pos (by omega)]
    obtain ⟨d, hd⟩ : ∃ d, j - pos = d + 1 := ⟨j - pos - 1, by omega⟩
    rw [hd, List.getElem?_cons_succ]
    congr 2
    omega
  · rw [if_neg h1]
    by_cases h2 : j = pos
    · subst h2
      simp
    · rw [if_neg h2, if_neg (by omega)]

/-- The iteration of `hexStrToBA` at a space. -/
theorem hexLoop_space (pre suf : List Nat) (count : Nat) (val : Mem) (fuel : Nat) :
    hexStrToBA_loop (pre ++ 0x20 :: suf) (fuel + 1) ⟨pre.length, count, val⟩
      = hexStrToBA_loop (pre ++ 0x20 :: suf) fuel ⟨pre.length + 1, count, val⟩ := by
  have hlt : pre.length < (pre ++ 0x20 :: suf).length := by simp
  simp only [hexStrToBA_loop, hlt, if_true, hexStrToBA_step, getD_at]

/-- The iteration of `hexStrToBA` at an item that is followed by a space or by the end
of the string: the value of the item is stored at `val[count]`. -/
theorem hexLoop_item (t : HexItem) (pre suf : List Nat) (count : Nat) (val : Mem)
    (fuel : Nat) (hok : t.ok = true) (hcount : count ≤ 254)
    (hsuf : suf = [] ∨ ∃ r, suf = 0x20 :: r) :
    hexStrToBA_loop (pre ++ (t.chars ++ suf)) (fuel + 1) ⟨pre.length, count, val⟩
      = hexStrToBA_loop (pre ++ (t.chars ++ suf)) fuel
          ⟨pre.length + t.chars.length, count + 1, poke val count t.value⟩ := by
  have hc : (count + 1) % 256 = count + 1 := Nat.mod_eq_of_lt (by omega)
  cases t with
  | two b up1 up2 =>
    have hb : b < 256 := by simpa [HexItem.ok] using hok
    obtain ⟨a1, a2, a3⟩ := hexDigitChar_spec (b / 16) (by omega) up1
    obtain ⟨c1, _, c3⟩ := hexDigitChar_spec (b % 16) (by omega) up2
    have hlt : pre.length < (pre ++ ([hexDigitChar (b / 16) up1, hexDigitChar (b % 16) up2]
        ++ suf)).length := by simp
    have hlt2 : pre.length + 1 < (pre ++ ([hexDigitChar (b / 16) up1,
        hexDigitChar (b % 16) up2] ++ suf)).length := by simp
    have g0 := getD_at pre (hexDigitChar (b / 16) up1) (hexDigitChar (b % 16) up2 :: suf)
    have g1 := getD_next pre (hexDigitChar (b / 16) up1) (hexDigitChar (b % 16) up2) suf
    have hval : (b / 16 * 16 + b % 16) % 256 = b := by omega
    simp only [HexItem.chars, HexItem.value, List.cons_append, List.nil_append,
      List.length_cons, List.length_nil] at hlt hlt2 ⊢
    simp only [hexStrToBA_loop, hlt, if_true, hexStrToBA_step, g0, g1, a1, a2, a3, c1, c3,
      hlt2, and_self, if_false, hc, hval]
  | one v up =>
    have hv : v < 16 := by simpa [HexItem.ok] using hok
    obtain ⟨a1, a2, a3⟩ := hexDigitChar_spec v hv up
    have hlt : pre.length < (pre ++ ([hexDigitChar v up] ++ suf)).length := by simp
    have g0 := getD_at pre (hexDigitChar v up) suf
    have hno : ¬ (pre.length + 1 < (pre ++ hexDigitChar v up :: suf).length ∧
        isHexDigit ((pre ++ hexDigitChar v up :: suf).getD (pre.length + 1) 0) = true) := by
      rcases hsuf with hs | ⟨r, hs⟩
      · subst hs; simp
      · subst hs
        rw [getD_next]
        simp [isHexDigit]
    simp only [HexItem.chars, HexItem.value, List.cons_append, List.nil_append,
      List.length_cons, List.length_nil] at hlt ⊢
    simp only [hexStrToBA_loop, hlt, if_true, hexStrToBA_step, g0, a1, a2, hno, if_false,
      a3, hc]

theorem store_singleton (m : Mem) (pos v : Nat) : store m pos [v] = poke m pos v := by
  rw [← poke_store, store_nil]

/-- The loop of `hexStrToBA` on a line of well-formed items: it is left after one
test per character and one more, with the values stored in order. -/
theorem hexLoop_items : ∀ (items : List HexItem) (pre : List Nat) (count : Nat) (val : Mem)
    (fuel : Nat), (∀ t ∈ items, t.ok = true) → count + items.length ≤ 255 →
    (hexLine items).length < fuel →
    hexStrToBA_loop (pre ++ hexLine items) fuel ⟨pre.length, count, val⟩
      = some ⟨(pre ++ hexLine items).length, count + items.length,
          store val count (items.map HexItem.value)⟩ := by
  intro items
  induction items with
  | nil =>
    intro pre count val fuel _ _ hfuel
    obtain ⟨n, rfl⟩ : ∃ n, fuel = n + 1 := ⟨fuel - 1, by omega⟩
    simp [hexLine, hexStrToBA_loop, store_nil]
  | cons t rest ih =>
    intro pre count val fuel hok hcount hfuel
    have htok : t.ok = true := hok t (List.mem_cons_self _ _)
    have hclen : 1 ≤ t.chars.length := by cases t <;> simp [HexItem.chars]
    cases rest with
    | nil =>
      have hline : hexLine [t] = t.chars := rfl
      rw [hline] at hfuel ⊢
      have hc1 : count ≤ 254 := by simp only [List.length_cons, List.length_nil] at hcount; omega
      obtain ⟨n, rfl⟩ : ∃ n, fuel = n + 1 + 1 := ⟨fuel - 2, by omega⟩
      have h1 := hexLoop_item t pre [] count val (n + 1) htok hc1 (Or.inl rfl)
      simp only [List.append_nil] at h1
      rw [h1]
      have hdone : ¬ (pre.length + t.chars.length < (pre ++ t.chars).length) := by simp
      rw [hexStrToBA_loop, if_neg hdone]
      simp [store_singleton]
    | cons u rest2 =>
      have hline : hexLine (t :: u :: rest2) = t.chars ++ 0x20 :: hexLine (u :: rest2) := rfl
      rw [hline] at hfuel ⊢
      simp only [List.length_append, List.length_cons] at hfuel
      have hc1 : count ≤ 253 := by simp only [List.length_cons] at hcount; omega
      obtain ⟨n, rfl⟩ : ∃ n, fuel = n + 1 + 1 := ⟨fuel - 2, by omega⟩
      have h1 := hexLoop_item t pre (0x20 :: hexLine (u :: rest2)) count val (n + 1) htok
        (by omega) (Or.inr ⟨_, rfl⟩)
      rw [h1]
      have h2 := hexLoop_space (pre ++ t.chars) (hexLine (u :: rest2)) (count + 1)
        (poke val count t.value) n
      have e0 : (pre ++ t.chars) ++ 0x20 :: hexLine (u :: rest2)
          = pre ++ (t.chars ++ 0x20 :: hexLine (u :: rest2)) := by simp
      have e0l : (pre ++ t.chars).length = pre.length + t.chars.length := by simp
      rw [e0, e0l] at h2
      rw [h2]
      have h3 := ih (pre ++ (t.chars ++ [0x20])) (count + 1) (poke val count t.value) n
        (fun x hx => hok x (List.mem_cons_of_mem _ hx))
        (by simp only [List.length_cons] at hcount ⊢; omega) (by omega)
      have e1 : (pre ++ (t.chars ++ [0x20])) ++ hexLine (u :: rest2)
          = pre ++ (t.chars ++ 0x20 :: hexLine (u :: rest2)) := by simp
      have e1l : (pre ++ (t.chars ++ [0x20])).length = pre.length + t.chars.length + 1 := by
        simp; omega
      rw [e1, e1l] at h3
      rw [h3, poke_store]
      simp only [List.map_cons, List.length_cons]
      congr 2
      omega

/-- The clock at the end of the script does not move beyond the deadline of a read by
more than one second. -/
theorem loop_horizon (end_time : Int) (size base : Nat) (script : List Poll) :
    ∀ (now offset : Nat) (buf : Mem),
      (((zio_read_loop end_time size base script now offset buf).now : Int)
          + elapsed (zio_read_loop end_time size base script now offset buf).script
        ≤ max ((now : Int) + elapsed script) (end_time + 1)) := by
  induction script with
  | nil =>
    intro now offset buf
    simp only [zio_read_loop, elapsed]
    split <;> omega
  | cons p rest ih =>
    intro now offset buf
    by_cases hnow : (now : Int) > end_time
    · simp only [zio_read_loop, hnow, if_true]
      omega
    · cases p with
      | selectErr =>
        simp only [zio_read_loop, hnow, if_false, elapsed]
        omega
      | readErr =>
        simp only [zio_read_loop, hnow, if_false, elapsed]
        omega
      | idle dt =>
        simp only [zio_read_loop, hnow, if_false, elapsed]
        have := ih (now + dt) offset buf
        push_cast at this ⊢
        omega
      | data dt bs =>
        simp only [zio_read_loop, hnow, if_false, elapsed]
        split
        · have := ih (now + dt) (offset + (bs.take (size - offset)).length)
            (store buf (base + offset) (bs.take (size - offset)))
          push_cast at this ⊢
          omega
        · split
          · simp only []
            push_cast
            omega
          · simp only [elapsed]
            push_cast
            omega

theorem zio_read_horizon (w : World) (buf : Mem) (base size : Nat)
    (hT : 0 ≤ w.max_timeout) :
    (((zio_read w buf base size).w.now : Int) + elapsed (zio_read w buf base size).w.script
      ≤ (w.now : Int) + elapsed w.script + (w.max_timeout + 1)) := by
  unfold zio_read
  simp only []
  split
  · have := loop_horizon ((w.now : Int) + w.max_timeout) (size % 256) base w.script w.now 0 buf
    simp only []
    omega
  · simp only []
    omega

/-- A `zio_read` of `size ≤ 255` bytes within which neither `select` nor `read` fails
returns a count `r ≤ size`; the buffer holds the first `r` bytes of the stream at its
positions `0 .. r-1` and is unchanged elsewhere; exactly these bytes are gone from the
stream; and `r = size` whenever `size` bytes arrive before the deadline. -/
theorem zio_read_not_failing (w : World) (buf : Mem) (base size : Nat) (hsize : size ≤ 255)
    (hok : failing ((w.now : Int) + w.max_timeout) w.now w.script size = false) :
    ∃ r : Nat, (zio_read w buf base size).ret = (r : Int) ∧ r ≤ size ∧
      r ≤ (stream w.script).length ∧
      (zio_read w buf base size).buf = store buf base ((stream w.script).take r) ∧
      stream (zio_read w buf base size).w.script = (stream w.script).drop r ∧
      (size ≤ (arriving ((w.now : Int) + w.max_timeout) w.now w.script).length →
        r = size) := by
  have hmod : size % 256 = size := Nat.mod_eq_of_lt (by omega)
  by_cases hpos : 0 < size
  · obtain ⟨k, h1, h2, h3, h4, h5, h6⟩ := loop_not_failing ((w.now : Int) + w.max_timeout)
      size base w.script w.now 0 buf hpos (by simpa using hok)
    refine ⟨k, ?_, by omega, h3, ?_, ?_, ?_⟩
    · simpa [zio_read, hmod, hpos] using h1
    · simpa [zio_read, hmod, hpos] using h4
    · simpa [zio_read, hmod, hpos] using h5
    · intro ha
      have := h6 (by simpa using ha)
      omega
  · have hz : size = 0 := by omega
    subst hz
    exact ⟨0, by simp [zio_read], le_refl _, Nat.zero_le _, by simp [zio_read, store_nil],
      by simp [zio_read], fun _ => rfl⟩

/-! ## The claims -/

/-- C2: for a payload of at most 250 bytes `send_SAPIData` hands to the transport
exactly `[0x01, L, 0x00] ++ payload ++ [X]`, with `L = n + 2` and `X` the exclusive-or
of `0xFF`, `L`, `0x00` and the payload bytes; when sequenced `L = n + 3` and the
sequence byte stands between payload and `X` and is part of `X`.  The number of bytes
written is `L + 2`. -/
theorem C2_send_SAPIData_wire_layout (w : World) (payload : List Nat) (sequenced : Bool)
    (hlen : payload.length ≤ 250) (hbytes : ∀ b ∈ payload, b < 256) :
    (send_SAPIData w (ofList payload) payload.length sequenced).tx
      = w.tx ++ ([0x01, lengthField payload.length sequenced, 0x00] ++ payload
          ++ seqBytes sequenced w.g_seq_number
          ++ [([lengthField payload.length sequenced, 0x00] ++ payload
                ++ seqBytes sequenced w.g_seq_number).foldl (· ^^^ ·) 0xFF]) ∧
    (send_SAPIData w (ofList payload) payload.length sequenced).tx.length
      = w.tx.length + (lengthField payload.length sequenced + 2) ∧
    lengthField payload.length false = payload.length + 2 ∧
    lengthField payload.length true = payload.length + 3 ∧
    seqBytes false w.g_seq_number = [] ∧
    seqBytes true w.g_seq_number = [w.g_seq_number % 256] := by
  have htx := send_SAPIData_tx w (ofList payload) payload.length sequenced hlen
  rw [window_ofList] at htx
  have hlt : xorAll ([lengthField payload.length sequenced, 0x00] ++ payload
      ++ seqBytes sequenced w.g_seq_number) < 256 := by
    apply xorAll_lt
    intro b hb
    simp only [List.mem_append, List.mem_cons, List.mem_singleton, List.not_mem_nil,
      or_false] at hb
    rcases hb with ((hb | hb) | hb) | hb
    · rw [hb]; unfold lengthField; split <;> omega
    · rw [hb]; norm_num
    · exact hbytes b hb
    · unfold seqBytes at hb
      cases sequenced
      · simp at hb
      · simp at hb; rw [hb]; exact Nat.mod_lt _ (by norm_num)
  refine ⟨?_, ?_, by simp [lengthField], by simp [lengthField], by simp [seqBytes],
    by simp [seqBytes]⟩
  · rw [htx, wireFrame, Nat.mod_eq_of_lt hlt]
    rfl
  · rw [htx]
    simp only [wireFrame, List.length_append, List.length_cons, List.length_nil]
    cases sequenced <;> simp [seqBytes, lengthField] <;> omega

/-- C2 (witness): payload `[0xAA, 0xBB]`, unsequenced, gives
`[0x01, 0x04, 0x00, 0xAA, 0xBB, 0xFF ^ 0x04 ^ 0x00 ^ 0xAA ^ 0xBB]`. -/
theorem C2_send_SAPIData_wire_layout_witness :
    ([0xAA, 0xBB] : List Nat).length ≤ 250 ∧ (∀ b ∈ ([0xAA, 0xBB] : List Nat), b < 256) ∧
    (send_SAPIData (startWorld []) (ofList [0xAA, 0xBB]) 2 false).tx
      = [0x01, 0x04, 0x00, 0xAA, 0xBB, 0xFF ^^^ 0x04 ^^^ 0x00 ^^^ 0xAA ^^^ 0xBB] ∧
    (send_SAPIData (startWorld []) (ofList [0xAA, 0xBB]) 2 false).tx.length = 4 + 2 :=
  ⟨by decide, by decide,
    (C2_send_SAPIData_wire_layout (startWorld []) [0xAA, 0xBB] false (by decide)
      (by decide)).1,
    (C2_send_SAPIData_wire_layout (startWorld []) [0xAA, 0xBB] false (by decide)
      (by decide)).2.1⟩

/-- C3: `crc8_SD(buff, count, offset)` is `0xFF` exclusive-ored with the `count` bytes
`buff[offset]`, ..., `buff[offset + count - 1]`, as an 8-bit value (the truncation to
8 bits changes nothing when the cells hold bytes); it is `0xFF` when `count` is 0. -/
theorem C3_crc8_SD_is_seeded_xor (buff : Mem) (count offset : Nat) :
    crc8_SD buff count offset
      = (window buff offset count).foldl (· ^^^ ·) 0xFF % 256 ∧
    ((∀ b ∈ window buff offset count, b < 256) →
      crc8_SD buff count offset = (window buff offset count).foldl (· ^^^ ·) 0xFF) ∧
    crc8_SD buff 0 offset = 0xFF := by
  have h := crc8_SD_eq buff count offset
  refine ⟨by simpa [xorAll] using h, ?_, rfl⟩
  intro hb
  rw [h, Nat.mod_eq_of_lt (xorAll_lt _ hb)]
  rfl

/-- C3 (witness): the checksum of the cells 1..3 of `[0x01, 0x04, 0x00, 0xAA, 0xBB]`. -/
theorem C3_crc8_SD_is_seeded_xor_witness :
    (∀ b ∈ window (ofList [0x01, 0x04, 0x00, 0xAA, 0xBB]) 1 3, b < 256) ∧
    crc8_SD (ofList [0x01, 0x04, 0x00, 0xAA, 0xBB]) 3 1
      = (window (ofList [0x01, 0x04, 0x00, 0xAA, 0xBB]) 1 3).foldl (· ^^^ ·) 0xFF ∧
    crc8_SD (ofList [0x01, 0x04, 0x00, 0xAA, 0xBB]) 3 1 = 0xFF ^^^ 0x04 ^^^ 0x00 ^^^ 0xAA :=
  ⟨by decide,
    (C3_crc8_SD_is_seeded_xor (ofList [0x01, 0x04, 0x00, 0xAA, 0xBB]) 3 1).2.1 (by decide),
    by decide⟩

/-- C8: in a world whose clock arithmetic fits `unsigned` (`clockFits`: no negative
timeout, no wrap of the deadline): if fewer than 2 bytes arrive before the deadline,
`receive_SAPIData` returns `RETCODE_INVALID_SOF_SIZE`; if the header read delivers
`0x01` and a length byte `L` and fewer than `L` further bytes arrive before the
deadline of the body read, it returns `RETCODE_INVALID_DATALEN` and hands the NACK
byte `0x15` to the transport. -/
theorem C8_short_read (w : World) (buf : Mem) (len : Nat) (_hfit : clockFits w = true) :
    ((arriving ((w.now : Int) + w.max_timeout) w.now w.script).length < 2 →
      (receive_SAPIData w buf len).ret = RETCODE_INVALID_SOF_SIZE) ∧
    ((zio_read w buf 0 2).ret = 2 → (zio_read w buf 0 2).buf 0 = 0x01 →
      (arriving (((zio_read w buf 0 2).w.now : Int) + (zio_read w buf 0 2).w.max_timeout)
          (zio_read w buf 0 2).w.now (zio_read w buf 0 2).w.script).length
        < (zio_read w buf 0 2).buf 1 →
      (receive_SAPIData w buf len).ret = RETCODE_INVALID_DATALEN ∧
      (receive_SAPIData w buf len).w.tx = w.tx ++ [0x15]) := by
  constructor
  · intro h
    have hle := zio_read_ret_le w buf 0 2
    have hne : (zio_read w buf 0 2).ret ≠ 2 := by omega
    simp [receive_SAPIData, hne]
  · intro h2 hsof hshort
    have hle := zio_read_ret_le (zio_read w buf 0 2).w (zio_read w buf 0 2).buf 2
      ((zio_read w buf 0 2).buf 1)
    have hne : (zio_read (zio_read w buf 0 2).w (zio_read w buf 0 2).buf 2
        ((zio_read w buf 0 2).buf 1)).ret ≠ (((zio_read w buf 0 2).buf 1 : Nat) : Int) := by
      omega
    have htx := (zio_read_frame w buf 0 2).1
    have ftx := (zio_read_frame (zio_read w buf 0 2).w (zio_read w buf 0 2).buf 2
      ((zio_read w buf 0 2).buf 1)).1
    simp [receive_SAPIData, h2, hsof, hne, sendAckNack_tx, htx, ftx]
    decide

/-- C8 (witness): one byte in time; a header announcing 7 bytes followed by 2. -/
theorem C8_short_read_witness :
    (clockFits oneByteWorld = true ∧
      (arriving ((oneByteWorld.now : Int) + oneByteWorld.max_timeout) oneByteWorld.now
        oneByteWorld.script).length < 2 ∧
      (receive_SAPIData oneByteWorld zeroMem 0).ret = RETCODE_INVALID_SOF_SIZE) ∧
    (clockFits shortBodyWorld = true ∧
      (zio_read shortBodyWorld zeroMem 0 2).ret = 2 ∧
      (zio_read shortBodyWorld zeroMem 0 2).buf 0 = 0x01 ∧
      (zio_read shortBodyWorld zeroMem 0 2).buf 1 = 7 ∧
      (arriving (((zio_read shortBodyWorld zeroMem 0 2).w.now : Int)
            + (zio_read shortBodyWorld zeroMem 0 2).w.max_timeout)
          (zio_read shortBodyWorld zeroMem 0 2).w.now
          (zio_read shortBodyWorld zeroMem 0 2).w.script) = [0x00, 0x05] ∧
      (receive_SAPIData shortBodyWorld zeroMem 0).ret = RETCODE_INVALID_DATALEN ∧
      (receive_SAPIData shortBodyWorld zeroMem 0).w.tx = shortBodyWorld.tx ++ [0x15]) :=
  ⟨⟨by decide, by decide, (C8_short_read oneByteWorld zeroMem 0 (by decide)).1 (by decide)⟩,
    by decide, by decide, by decide, by decide, by decide,
    (C8_short_read shortBodyWorld zeroMem 0 (by decide)).2 (by decide) (by decide)
      (by decide)⟩

/-- C9: the bytes `receive_SAPIData` hands to the transport are fixed by its result:
the single byte `0x06` with `RETCODE_OK`, the single byte `0x15` with
`RETCODE_INVALID_DATALEN` or `RETCODE_INVALID_CRC`, nothing with `RETCODE_INVALID_SOF`
or `RETCODE_INVALID_SOF_SIZE`; there is no other result. -/
theorem C9_handshake_policy (w : World) (buf : Mem) (len : Nat) :
    ((receive_SAPIData w buf len).ret = RETCODE_OK ∧
      (receive_SAPIData w buf len).w.tx = w.tx ++ [0x06]) ∨
    (((receive_SAPIData w buf len).ret = RETCODE_INVALID_DATALEN ∨
        (receive_SAPIData w buf len).ret = RETCODE_INVALID_CRC) ∧
      (receive_SAPIData w buf len).w.tx = w.tx ++ [0x15]) ∨
    (((receive_SAPIData w buf len).ret = RETCODE_INVALID_SOF ∨
        (receive_SAPIData w buf len).ret = RETCODE_INVALID_SOF_SIZE) ∧
      (receive_SAPIData w buf len).w.tx = w.tx) := by
  have htx := (zio_read_frame w buf 0 2).1
  have ftx := (zio_read_frame (zio_read w buf 0 2).w (zio_read w buf 0 2).buf 2
    ((zio_read w buf 0 2).buf 1)).1
  have hack : ACK_CODE % 256 = 0x06 := by decide
  have hnack : NACK_CODE % 256 = 0x15 := by decide
  unfold receive_SAPIData
  simp only []
  split
  · exact Or.inr (Or.inr ⟨Or.inr rfl, htx⟩)
  · split
    · exact Or.inr (Or.inr ⟨Or.inl rfl, htx⟩)
    · split
      · refine Or.inr (Or.inl ⟨Or.inl rfl, ?_⟩)
        rw [sendAckNack_tx, ftx, htx, hnack]
      · split
        · refine Or.inr (Or.inl ⟨Or.inr rfl, ?_⟩)
          rw [sendAckNack_tx, ftx, htx, hnack]
        · refine Or.inl ⟨rfl, ?_⟩
          rw [sendAckNack_tx, ftx, htx, hack]

/-- C10: in a world whose clock arithmetic fits `unsigned` (`clockFits`: no negative
timeout, no wrap of the deadline), with a non-empty payload: if the first byte that
arrives before the deadline after the command frame is written is not `0x06` (or none
arrives), `send_SAPICommand` returns `RETCODE_NOACK`: it takes at most one byte from
the stream, hands nothing to the transport after the command frame, and leaves the
response buffer and the response length as they were. -/
theorem C10_handshake_gating (w : World) (cmd_buff : Mem) (data_len : Nat)
    (cmd_response : Option Mem) (response_len : Nat) (bcallback : Bool)
    (_hfit : clockFits w = true) (hpos : 0 < data_len)
    (hnoack : (arriving ((w.now : Int) + w.max_timeout) w.now w.script).head?
      ≠ some ACK_CODE) :
    ∃ r, send_SAPICommand w cmd_buff data_len cmd_response response_len bcallback = some r ∧
      r.ret = RETCODE_NOACK ∧
      r.resp = cmd_response ∧ r.len = response_len ∧
      r.w.tx = (send_SAPIData w cmd_buff data_len bcallback).tx ∧
      ∃ k, k ≤ 1 ∧ stream r.w.script = (stream w.script).drop k := by
  obtain ⟨fs, fn, ft⟩ := send_SAPIData_frame w cmd_buff data_len bcallback
  have hcond : (zio_read (send_SAPIData w cmd_buff data_len bcallback) (fun _ => 0) 0 1).ret ≠ 1
      ∨ (zio_read (send_SAPIData w cmd_buff data_len bcallback) (fun _ => 0) 0 1).buf 0
        ≠ ACK_CODE := by
    by_cases h1 : (zio_read (send_SAPIData w cmd_buff data_len bcallback)
        (fun _ => 0) 0 1).ret = 1
    · right
      have := zio_read_one _ _ _ h1
      rw [fs, fn, ft] at this
      intro heq
      rw [heq] at this
      exact hnoack this
    · exact Or.inl h1
  obtain ⟨k, hk, hs⟩ := zio_read_consumes (send_SAPIData w cmd_buff data_len bcallback)
    (fun _ => 0) 0 1
  refine ⟨⟨RETCODE_NOACK, (zio_read (send_SAPIData w cmd_buff data_len bcallback)
    (fun _ => 0) 0 1).w, cmd_response, response_len⟩, ?_, rfl, rfl, rfl, ?_, k, by omega, ?_⟩
  · simp only [send_SAPICommand, gt_iff_lt, hpos, if_true, hcond]
  · exact (zio_read_frame _ _ _ _).1
  · rw [hs, fs]

/-- C10 (witness): the device answers the command `[0x10, 0x20]` with `0x15`. -/
theorem C10_handshake_gating_witness :
    (clockFits nackWorld = true ∧ 0 < 2 ∧
      (arriving ((nackWorld.now : Int) + nackWorld.max_timeout) nackWorld.now
        nackWorld.script).head? ≠ some ACK_CODE) ∧
    ∃ r, send_SAPICommand nackWorld (ofList [0x10, 0x20]) 2 (some zeroMem) 9 true = some r ∧
      r.ret = RETCODE_NOACK ∧
      r.resp = some zeroMem ∧ r.len = 9 ∧
      r.w.tx = (send_SAPIData nackWorld (ofList [0x10, 0x20]) 2 true).tx ∧
      ∃ k, k ≤ 1 ∧ stream r.w.script = (stream nackWorld.script).drop k :=
  ⟨⟨by decide, by decide, by decide⟩,
    C10_handshake_gating nackWorld (ofList [0x10, 0x20]) 2 (some zeroMem) 9 true
      (by decide) (by decide) (by decide)⟩

/-- C11: for a payload of at most 250 bytes and a counter `c`, a sequenced
`send_SAPIData` writes `c mod 256` right after the payload, before the checksum, and
leaves the counter at `c + 1`; an unsequenced one leaves the counter as it is (and
writes no sequence byte). -/
theorem C11_sequenced_encoding_and_counter (w : World) (payload : List Nat)
    (hlen : payload.length ≤ 250) (hbytes : ∀ b ∈ payload, b < 256) :
    (send_SAPIData w (ofList payload) payload.length true).tx
      = w.tx ++ ([0x01, payload.length + 3, 0x00] ++ payload ++ [w.g_seq_number % 256]
          ++ [([payload.length + 3, 0x00] ++ payload
                ++ [w.g_seq_number % 256]).foldl (· ^^^ ·) 0xFF]) ∧
    (send_SAPIData w (ofList payload) payload.length true).g_seq_number
      = w.g_seq_number + 1 ∧
    (send_SAPIData w (ofList payload) payload.length false).tx
      = w.tx ++ ([0x01, payload.length + 2, 0x00] ++ payload
          ++ [([payload.length + 2, 0x00] ++ payload).foldl (· ^^^ ·) 0xFF]) ∧
    (send_SAPIData w (ofList payload) payload.length false).g_seq_number
      = w.g_seq_number := by
  have ht := send_SAPIData_tx w (ofList payload) payload.length true hlen
  have hf := send_SAPIData_tx w (ofList payload) payload.length false hlen
  rw [window_ofList, wireFrame_bytes payload _ _ hlen hbytes] at ht hf
  refine ⟨?_, by simp [send_SAPIData_seq], ?_, by simp [send_SAPIData_seq]⟩
  · rw [ht]; simp [lengthField, seqBytes]
  · rw [hf]; simp [lengthField, seqBytes]

/-- C11 (witness): empty payload, sequenced, counter `0x05`: the frame is
`[0x01, 0x03, 0x00, 0x05, 0xFF ^ 0x03 ^ 0x00 ^ 0x05]` and the counter becomes `0x06`. -/
theorem C11_sequenced_encoding_and_counter_witness :
    (([] : List Nat).length ≤ 250 ∧ ∀ b ∈ ([] : List Nat), b < 256) ∧
    (send_SAPIData (counterWorld 0x05) (ofList []) 0 true).tx
      = [0x01, 0x03, 0x00, 0x05, 0xFF ^^^ 0x03 ^^^ 0x00 ^^^ 0x05] ∧
    (send_SAPIData (counterWorld 0x05) (ofList []) 0 true).g_seq_number = 0x06 ∧
    (send_SAPIData (counterWorld 0x05) (ofList []) 0 false).g_seq_number = 0x05 :=
  ⟨⟨by decide, by decide⟩,
    (C11_sequenced_encoding_and_counter (counterWorld 0x05) [] (by decide) (by decide)).1,
    (C11_sequenced_encoding_and_counter (counterWorld 0x05) [] (by decide) (by decide)).2.1,
    (C11_sequenced_encoding_and_counter (counterWorld 0x05) [] (by decide)
      (by decide)).2.2.2⟩

/-- C12 (counterexample): a process starts with the counter at 1, so its first
sequenced frame carries the sequence byte 1, not 0. -/
theorem C12_initial_sequence_byte_counterexample :
    (startWorld []).g_seq_number = 1 ∧
    (sendSeq (startWorld []) [[]]).tx = [0x01, 0x03, 0x00, 0x01, 0xFD] ∧
    (sendSeq (startWorld []) [[]]).tx.getD 3 0 ≠ 0 := by
  decide

/-- C12 (amended): for every starting counter `c`, the `k`-th consecutive sequenced frame
(`k = 0, 1, 2, ...`) carries the sequence byte `(c + k) mod 256`: the byte after 255
is 0 and the frame 256 sends later repeats the byte.  A process starts with `c = 1`,
so its frames carry 1, 2, ..., 255, 0, 1, ... -/
theorem C12_sequence_bytes_wrap (w : World) (ps : List (List Nat)) (p : List Nat)
    (hlen : p.length ≤ 250) (hbytes : ∀ b ∈ p, b < 256) :
    (sendSeq w (ps ++ [p])).tx
      = (sendSeq w ps).tx ++ ([0x01, p.length + 3, 0x00] ++ p
          ++ [(w.g_seq_number + ps.length) % 256]
          ++ [([p.length + 3, 0x00] ++ p
                ++ [(w.g_seq_number + ps.length) % 256]).foldl (· ^^^ ·) 0xFF]) ∧
    (sendSeq w (ps ++ [p])).g_seq_number = w.g_seq_number + (ps.length + 1) ∧
    ((w.g_seq_number + ps.length) % 256 = 255 →
      (w.g_seq_number + (ps.length + 1)) % 256 = 0) ∧
    (w.g_seq_number + (ps.length + 256)) % 256 = (w.g_seq_number + ps.length) % 256 ∧
    (sendSeq (startWorld []) (ps ++ [p])).tx
      = (sendSeq (startWorld []) ps).tx ++ ([0x01, p.length + 3, 0x00] ++ p
          ++ [(1 + ps.length) % 256]
          ++ [([p.length + 3, 0x00] ++ p
                ++ [(1 + ps.length) % 256]).foldl (· ^^^ ·) 0xFF]) := by
  have key : ∀ v : World, (sendSeq v (ps ++ [p])).tx
      = (sendSeq v ps).tx ++ ([0x01, p.length + 3, 0x00] ++ p
          ++ [(v.g_seq_number + ps.length) % 256]
          ++ [([p.length + 3, 0x00] ++ p
                ++ [(v.g_seq_number + ps.length) % 256]).foldl (· ^^^ ·) 0xFF]) := by
    intro v
    rw [sendSeq_append, send_SAPIData_tx _ _ _ _ hlen, window_ofList,
      wireFrame_bytes p _ _ hlen hbytes, sendSeq_counter]
    simp [lengthField, seqBytes]
  refine ⟨key w, ?_, by omega, by omega, key (startWorld [])⟩
  rw [sendSeq_counter]
  simp

/-- C12 (amended, witness): counter 254, third consecutive frame: sequence byte 0. -/
theorem C12_sequence_bytes_wrap_witness :
    (([0x10] : List Nat).length ≤ 250 ∧ ∀ b ∈ ([0x10] : List Nat), b < 256) ∧
    (sendSeq (counterWorld 254) ([[], [0xAA]] ++ [[0x10]])).tx
      = (sendSeq (counterWorld 254) [[], [0xAA]]).tx ++ ([0x01, 1 + 3, 0x00] ++ [0x10]
          ++ [(254 + 2) % 256]
          ++ [([1 + 3, 0x00] ++ [0x10] ++ [(254 + 2) % 256]).foldl (· ^^^ ·) 0xFF]) ∧
    (sendSeq (counterWorld 254) [[], [0xAA]]).tx
      = [0x01, 0x03, 0x00, 0xFE, 0x02, 0x01, 0x04, 0x00, 0xAA, 0xFF, 0xAE] ∧
    (254 + 2) % 256 = 0 :=
  ⟨⟨by decide, by decide⟩,
    (C12_sequence_bytes_wrap (counterWorld 254) [[], [0xAA]] [0x10] (by decide)
      (by decide)).1,
    by decide, by decide⟩

/-- C14 (counterexample): a failing `read` during the header read is reported as
`RETCODE_INVALID_SOF_SIZE` (6), a failing `select` during the body read as
`RETCODE_INVALID_DATALEN` (2) after one more write (the NACK byte), and a failing
`write` of the command frame is not reported at all: the call reads the ACK byte and
the response, writes its own ACK and returns `RETCODE_OK` (0). -/
theorem C14_failures_reported_as_codes_counterexample :
    (zio_read readErrWorld zeroMem 0 2).ret = -1 ∧
    (receive_SAPIData readErrWorld zeroMem 0).ret = RETCODE_INVALID_SOF_SIZE ∧
    (receive_SAPIData bodyErrWorld zeroMem 0).ret = RETCODE_INVALID_DATALEN ∧
    (receive_SAPIData bodyErrWorld zeroMem 0).w.tx = [0x15] ∧
    (zio_write writeErrWorld zeroMem 5).1 = -1 ∧
    (send_SAPICommand writeErrWorld (ofList [0x10]) 1 (some zeroMem) 0 false).map
        (fun r => (r.ret, r.w.tx, stream r.w.script))
      = some (RETCODE_OK, [0x01, 0x03, 0x00, 0x10, 0xEC, 0x06], []) := by
  decide

/-- C14 (amended): a transport failure is reported through the named result codes.  A
`select` or `read` that fails during the header read makes `receive_SAPIData` return
`RETCODE_INVALID_SOF_SIZE` with nothing written; during the body read it makes it
write the NACK byte and return `RETCODE_INVALID_DATALEN`; during the ACK read of
`send_SAPICommand` the result is `RETCODE_NOACK`.  What `write` returns is never
looked at: it changes neither the result codes nor the bytes read and written. -/
theorem C14_transport_failures_become_result_codes (w : World) (buf : Mem) (len : Nat)
    (cmd_buff : Mem) (data_len : Nat) (cmd_response : Option Mem) (response_len : Nat)
    (bcallback : Bool) (x : List Int) :
    (failing ((w.now : Int) + w.max_timeout) w.now w.script 2 = true →
      (receive_SAPIData w buf len).ret = RETCODE_INVALID_SOF_SIZE ∧
      (receive_SAPIData w buf len).w.tx = w.tx) ∧
    ((zio_read w buf 0 2).ret = 2 → (zio_read w buf 0 2).buf 0 = 0x01 →
      failing (((zio_read w buf 0 2).w.now : Int) + (zio_read w buf 0 2).w.max_timeout)
          (zio_read w buf 0 2).w.now (zio_read w buf 0 2).w.script
          ((zio_read w buf 0 2).buf 1 % 256) = true →
      (receive_SAPIData w buf len).ret = RETCODE_INVALID_DATALEN ∧
      (receive_SAPIData w buf len).w.tx = w.tx ++ [0x15]) ∧
    (0 < data_len → failing ((w.now : Int) + w.max_timeout) w.now w.script 1 = true →
      ∃ r, send_SAPICommand w cmd_buff data_len cmd_response response_len bcallback
          = some r ∧ r.ret = RETCODE_NOACK) ∧
    ((receive_SAPIData { w with wres := x } buf len).ret = (receive_SAPIData w buf len).ret ∧
      (receive_SAPIData { w with wres := x } buf len).w.tx
        = (receive_SAPIData w buf len).w.tx ∧
      (receive_SAPIData { w with wres := x } buf len).w.script
        = (receive_SAPIData w buf len).w.script) ∧
    (send_SAPICommand { w with wres := x } cmd_buff data_len cmd_response response_len
        bcallback).map (fun r => (r.ret, r.len, r.w.tx, r.w.script))
      = (send_SAPICommand w cmd_buff data_len cmd_response response_len bcallback).map
          (fun r => (r.ret, r.len, r.w.tx, r.w.script)) := by
  refine ⟨?_, ?_, ?_, ?_, send_SAPICommand_wres w x _ _ _ _ _⟩
  · intro h
    have hr := zio_read_failing w buf 0 2 (by simpa using h)
    have hne : (zio_read w buf 0 2).ret ≠ 2 := by
      rcases hr with hr | hr <;> rw [hr] <;> decide
    simp [receive_SAPIData, hne, (zio_read_frame w buf 0 2).1]
  · intro h2 hsof hfail
    have hr := zio_read_failing (zio_read w buf 0 2).w (zio_read w buf 0 2).buf 2
      ((zio_read w buf 0 2).buf 1) hfail
    have hpos : 0 < (zio_read w buf 0 2).buf 1 := by
      by_contra hc
      have hz : (zio_read w buf 0 2).buf 1 = 0 := by omega
      rw [hz] at hfail
      cases hs : (zio_read w buf 0 2).w.script with
      | nil => rw [hs] at hfail; simp [failing] at hfail
      | cons p t => rw [hs] at hfail; cases p <;> simp [failing] at hfail
    have hne : (zio_read (zio_read w buf 0 2).w (zio_read w buf 0 2).buf 2
        ((zio_read w buf 0 2).buf 1)).ret ≠ (((zio_read w buf 0 2).buf 1 : Nat) : Int) := by
      rcases hr with hr | hr <;> rw [hr] <;> omega
    have htx := (zio_read_frame w buf 0 2).1
    have ftx := (zio_read_frame (zio_read w buf 0 2).w (zio_read w buf 0 2).buf 2
      ((zio_read w buf 0 2).buf 1)).1
    simp [receive_SAPIData, h2, hsof, hne, sendAckNack_tx, htx, ftx]
    decide
  · intro hpos hfail
    obtain ⟨fs, fn, ft⟩ := send_SAPIData_frame w cmd_buff data_len bcallback
    have hr := zio_read_failing (send_SAPIData w cmd_buff data_len bcallback)
      (fun _ => 0) 0 1 (by rw [fs, fn, ft]; simpa using hfail)
    have hne : (zio_read (send_SAPIData w cmd_buff data_len bcallback)
        (fun _ => 0) 0 1).ret ≠ 1 := by
      rcases hr with hr | hr <;> rw [hr] <;> decide
    refine ⟨⟨RETCODE_NOACK, (zio_read (send_SAPIData w cmd_buff data_len bcallback)
      (fun _ => 0) 0 1).w, cmd_response, response_len⟩, ?_, rfl⟩
    simp only [send_SAPICommand, gt_iff_lt, hpos, if_true, hne, ne_eq, not_false_eq_true,
      true_or]
  · obtain ⟨h1, _, _, h4, h5⟩ := receive_SAPIData_wres w x buf len
    exact ⟨h1, h4, h5⟩

/-- C14 (amended, witness): a failing `read` at the header, a failing `select` in the
body, a failing `read` at the ACK, and a `write` that returns -1. -/
theorem C14_transport_failures_become_result_codes_witness :
    (failing ((readErrWorld.now : Int) + readErrWorld.max_timeout) readErrWorld.now
        readErrWorld.script 2 = true ∧
      (receive_SAPIData readErrWorld zeroMem 0).ret = RETCODE_INVALID_SOF_SIZE ∧
      (receive_SAPIData readErrWorld zeroMem 0).w.tx = readErrWorld.tx) ∧
    (((zio_read bodyErrWorld zeroMem 0 2).ret = 2 ∧
        (zio_read bodyErrWorld zeroMem 0 2).buf 0 = 0x01 ∧
        failing (((zio_read bodyErrWorld zeroMem 0 2).w.now : Int)
            + (zio_read bodyErrWorld zeroMem 0 2).w.max_timeout)
          (zio_read bodyErrWorld zeroMem 0 2).w.now (zio_read bodyErrWorld zeroMem 0 2).w.script
          ((zio_read bodyErrWorld zeroMem 0 2).buf 1 % 256) = true) ∧
      (receive_SAPIData bodyErrWorld zeroMem 0).ret = RETCODE_INVALID_DATALEN ∧
      (receive_SAPIData bodyErrWorld zeroMem 0).w.tx = bodyErrWorld.tx ++ [0x15]) ∧
    ((0 < 1 ∧ failing ((readErrWorld.now : Int) + readErrWorld.max_timeout) readErrWorld.now
        readErrWorld.script 1 = true) ∧
      ∃ r, send_SAPICommand readErrWorld (ofList [0x10]) 1 none 0 false = some r ∧
        r.ret = RETCODE_NOACK) :=
  ⟨⟨by decide,
      (C14_transport_failures_become_result_codes readErrWorld zeroMem 0 (ofList [0x10]) 1
        none 0 false [-1]).1 (by decide)⟩,
    ⟨⟨by decide, by decide, by decide⟩,
      (C14_transport_failures_become_result_codes bodyErrWorld zeroMem 0 (ofList [0x10]) 1
        none 0 false [-1]).2.1 (by decide) (by decide) (by decide)⟩,
    ⟨⟨by decide, by decide⟩,
      (C14_transport_failures_become_result_codes readErrWorld zeroMem 0 (ofList [0x10]) 1
        none 0 false [-1]).2.2.1 (by decide) (by decide)⟩⟩

/-- C15: with `data_len = 0` and a response buffer, `send_SAPICommand` is one
`receive_SAPIData` call on the same state: same result, data, length, world.  No
command frame is written, no ACK byte is read, and the sequence number stays as it is
even when sequencing is requested. -/
theorem C15_empty_payload_skips_send (w : World) (cmd_buff : Mem) (buf : Mem)
    (response_len : Nat) (bcallback : Bool) :
    send_SAPICommand w cmd_buff 0 (some buf) response_len bcallback
      = some ⟨(receive_SAPIData w buf response_len).ret,
          (receive_SAPIData w buf response_len).w,
          some (receive_SAPIData w buf response_len).buf,
          (receive_SAPIData w buf response_len).len⟩ ∧
    (receive_SAPIData w buf response_len).w.g_seq_number = w.g_seq_number ∧
    ((receive_SAPIData w buf response_len).w.tx = w.tx ∨
      (receive_SAPIData w buf response_len).w.tx = w.tx ++ [0x06] ∨
      (receive_SAPIData w buf response_len).w.tx = w.tx ++ [0x15]) := by
  refine ⟨?_, receive_SAPIData_seq w buf response_len, ?_⟩
  · simp [send_SAPICommand, receive_into]
  · have htx := (zio_read_frame w buf 0 2).1
    have ftx := (zio_read_frame (zio_read w buf 0 2).w (zio_read w buf 0 2).buf 2
      ((zio_read w buf 0 2).buf 1)).1
    unfold receive_SAPIData
    simp only []
    split
    · exact Or.inl htx
    · split
      · exact Or.inl htx
      · split
        · right; right
          rw [sendAckNack_tx, ftx, htx]; rfl
        · split
          · right; right
            rw [sendAckNack_tx, ftx, htx]; rfl
          · right; left
            rw [sendAckNack_tx, ftx, htx]; rfl

/-- C16: in a world whose clock arithmetic fits `unsigned` (`clockFits`), the deadline
of a `zio_read` call, the 32-bit unsigned sum of line 119, is the clock at its own
entry plus `max_timeout`, and so is the deadline of the read that follows the header
read, taken at the clock the header read ended with.  The call reads what arrives at
polls that start no later than its deadline, and nothing later: its count never
exceeds the bytes arriving before the deadline and, without a transport failure,
equals them (capped at the requested size).  Within one `receive_SAPIData` the body
read has a deadline of its own, counted from the clock at which the header read
ended: a body that arrives within `max_timeout` of that moment is accepted. -/
theorem C16_per_read_deadline (w : World) (buf : Mem) (base size : Nat) (len : Nat)
    (L : Nat) (bs : List Nat) (X : Nat) (more : List Nat) (hfit : clockFits w = true) :
    (((w.now % 2 ^ 32 : Nat) : Int) + w.max_timeout) % 2 ^ 32
      = (w.now : Int) + w.max_timeout ∧
    ((((zio_read w buf 0 2).w.now % 2 ^ 32 : Nat) : Int)
        + (zio_read w buf 0 2).w.max_timeout) % 2 ^ 32
      = ((zio_read w buf 0 2).w.now : Int) + w.max_timeout ∧
    (zio_read w buf base size).ret
      ≤ ((arriving ((w.now : Int) + w.max_timeout) w.now w.script).length : Int) ∧
    (failing ((w.now : Int) + w.max_timeout) w.now w.script (size % 256) = false →
      (zio_read w buf base size).ret
        = ((min (size % 256)
            (arriving ((w.now : Int) + w.max_timeout) w.now w.script).length : Nat) : Int)) ∧
    ((zio_read w buf 0 2).ret = 2 → (zio_read w buf 0 2).buf 0 = 0x01 →
      (zio_read w buf 0 2).buf 1 = L → bs.length + 1 = L → L ≤ 255 →
      X = crc8_SD (ofList (L :: bs)) L 0 →
      supplies (zio_read w buf 0 2).w.max_timeout (zio_read w buf 0 2).w.script
        (bs ++ [X] ++ more) = true →
      (zio_read w buf 0 2).w.max_timeout = w.max_timeout ∧
      (receive_SAPIData w buf len).ret = RETCODE_OK ∧
      window (receive_SAPIData w buf len).buf 0 (receive_SAPIData w buf len).len = bs) := by
  simp only [clockFits, Bool.and_eq_true, decide_eq_true_eq] at hfit
  obtain ⟨hT, hlim⟩ := hfit
  norm_num at hlim
  refine ⟨?_, ?_, zio_read_ret_le w buf base size, ?_, ?_⟩
  · have hnow : w.now % 2 ^ 32 = w.now := Nat.mod_eq_of_lt (by norm_num; omega)
    rw [hnow]
    exact Int.emod_eq_of_lt (by omega) (by norm_num; omega)
  · have hh := zio_read_horizon w buf 0 2 hT
    have hnow : (zio_read w buf 0 2).w.now % 2 ^ 32 = (zio_read w buf 0 2).w.now :=
      Nat.mod_eq_of_lt (by norm_num; omega)
    rw [hnow, (zio_read_frame w buf 0 2).2.2.1]
    exact Int.emod_eq_of_lt (by omega) (by norm_num; omega)
  · intro hf
    by_cases hpos : 0 < size % 256
    · have := loop_ret_eq ((w.now : Int) + w.max_timeout) (size % 256) base w.script w.now 0
        buf hpos (by simpa using hf)
      simpa [zio_read, hpos] using this
    · have hz : size % 256 = 0 := by omega
      simp [zio_read, hz]
  · intro h2 h0 h1 hL hL255 hX hbody
    obtain ⟨k1, k2, k3⟩ := receive_of_body_supplies w buf len L bs X more h2 h0 h1 hL
      (by omega) hX (by simpa using hbody)
    exact ⟨(zio_read_frame w buf 0 2).2.2.1, k1, by rw [k3]; exact k2⟩

/-- C16 (witness): with a timeout of 3 the header is complete 4 seconds after the call
and the body 3 seconds later; only the header arrives within 3 seconds of the call,
and the frame is accepted. -/
theorem C16_per_read_deadline_witness :
    clockFits slowFrameWorld = true ∧
    (arriving ((slowFrameWorld.now : Int) + slowFrameWorld.max_timeout) slowFrameWorld.now
        slowFrameWorld.script) = [0x01, 0x03] ∧
    (failing ((slowFrameWorld.now : Int) + slowFrameWorld.max_timeout) slowFrameWorld.now
        slowFrameWorld.script (5 % 256) = false ∧
      (zio_read slowFrameWorld zeroMem 0 5).ret = ((min (5 % 256)
        (arriving ((slowFrameWorld.now : Int) + slowFrameWorld.max_timeout)
          slowFrameWorld.now slowFrameWorld.script).length : Nat) : Int)) ∧
    (zio_read slowFrameWorld zeroMem 0 5).ret = 2 ∧
    ((zio_read slowFrameWorld zeroMem 0 2).ret = 2 ∧
      (zio_read slowFrameWorld zeroMem 0 2).buf 0 = 0x01 ∧
      (zio_read slowFrameWorld zeroMem 0 2).buf 1 = 3 ∧
      ([0x00, 0x05] : List Nat).length + 1 = 3 ∧ 3 ≤ 255 ∧
      0xF9 = crc8_SD (ofList (3 :: [0x00, 0x05])) 3 0 ∧
      (zio_read slowFrameWorld zeroMem 0 2).w.now = slowFrameWorld.now + 4 ∧
      supplies (zio_read slowFrameWorld zeroMem 0 2).w.max_timeout
        (zio_read slowFrameWorld zeroMem 0 2).w.script ([0x00, 0x05] ++ [0xF9] ++ []) = true) ∧
    ((zio_read slowFrameWorld zeroMem 0 2).w.max_timeout = slowFrameWorld.max_timeout ∧
      (receive_SAPIData slowFrameWorld zeroMem 0).ret = RETCODE_OK ∧
      window (receive_SAPIData slowFrameWorld zeroMem 0).buf 0
        (receive_SAPIData slowFrameWorld zeroMem 0).len = [0x00, 0x05]) :=
  ⟨by decide, by decide,
    ⟨by decide, (C16_per_read_deadline slowFrameWorld zeroMem 0 5 0 3 [0x00, 0x05] 0xF9
      [] (by decide)).2.2.2.1 (by decide)⟩,
    by decide,
    ⟨by decide, by decide, by decide, by decide, by decide, by decide, by decide, by decide⟩,
    (C16_per_read_deadline slowFrameWorld zeroMem 0 5 0 3 [0x00, 0x05] 0xF9 []
      (by decide)).2.2.2.2
      (by decide) (by decide) (by decide) (by decide) (by decide) (by decide) (by decide)⟩

/-- C18: a `zio_read` call that returns a count need not have consumed that many
bytes.  In a world whose clock arithmetic fits `unsigned`, let `k` bytes, `1 ≤ k <
size ≤ 255`, be read in time and let `select` fail at the next poll, in time too:
`zio_read` returns the count 0 (line 137), yet the `k` bytes are stored at the buffer
positions `0 .. k-1` and are gone from the stream.  Had `read` failed at that poll, the
result would have been -1 (line 146). -/
theorem C18_select_failure_returns_zero (w : World) (buf : Mem) (base size : Nat)
    (dt : Nat) (bs : List Nat) (rest : List Poll) (hfit : clockFits w = true)
    (hsize : size ≤ 255) (hpos : 0 < bs.length) (hlt : bs.length < size)
    (hdt : (dt : Int) ≤ w.max_timeout)
    (hscript : w.script = Poll.data dt bs :: Poll.selectErr :: rest) :
    (zio_read w buf base size).ret = 0 ∧
    (zio_read w buf base size).buf = store buf base bs ∧
    window (zio_read w buf base size).buf base bs.length = bs ∧
    (stream w.script).take bs.length = bs ∧
    stream (zio_read w buf base size).w.script = (stream w.script).drop bs.length ∧
    (zio_read { w with script := Poll.data dt bs :: Poll.readErr :: rest } buf base size).ret
      = -1 := by
  simp only [clockFits, Bool.and_eq_true, decide_eq_true_eq] at hfit
  obtain ⟨hT, _⟩ := hfit
  have hmod : size % 256 = size := Nat.mod_eq_of_lt (by omega)
  have hsz : 0 < size := by omega
  have h1 : ¬ ((w.now : Int) > (w.now : Int) + w.max_timeout) := by omega
  have h2 : ¬ (((w.now + dt : Nat) : Int) > (w.now : Int) + w.max_timeout) := by
    push_cast; omega
  have htake : bs.take (size - 0) = bs := List.take_of_length_le (by omega)
  have hcont : 0 + bs.length < size := by omega
  have hret : zio_read w buf base size
      = ⟨0, { w with now := w.now + dt, script := rest }, store buf (base + 0) bs⟩ := by
    simp only [zio_read, hmod, hsz, if_true, hscript, zio_read_loop, h1, h2, if_false, htake,
      hcont]
  have hret2 : (zio_read { w with script := Poll.data dt bs :: Poll.readErr :: rest } buf base
      size).ret = -1 := by
    simp only [zio_read, hmod, hsz, if_true, zio_read_loop, h1, h2, if_false, htake, hcont]
  have hst : stream w.script = bs ++ stream rest := by
    rw [hscript]; simp [stream]
  refine ⟨by rw [hret], by rw [hret]; rfl, ?_, by rw [hst]; simp, ?_, hret2⟩
  · rw [hret]
    have := window_store_take buf base bs bs.length (le_refl _)
    simpa using this
  · rw [hret, hst]; simp

/-- C18 (witness): a read of 2 bytes from a device that delivers the byte `0x07` and
fails in `select` at the next poll: the count is 0, `0x07` is in the buffer and no
longer on the device. -/
theorem C18_select_failure_returns_zero_witness :
    (clockFits selectErrWorld = true ∧ 2 ≤ 255 ∧ 0 < ([0x07] : List Nat).length ∧
      ([0x07] : List Nat).length < 2 ∧ ((0 : Nat) : Int) ≤ selectErrWorld.max_timeout ∧
      selectErrWorld.script
        = Poll.data 0 [0x07] :: Poll.selectErr :: [Poll.data 0 [0x08]]) ∧
    (zio_read selectErrWorld zeroMem 0 2).ret = 0 ∧
    window (zio_read selectErrWorld zeroMem 0 2).buf 0 1 = [0x07] ∧
    stream selectErrWorld.script = [0x07, 0x08] ∧
    stream (zio_read selectErrWorld zeroMem 0 2).w.script = [0x08] :=
  ⟨⟨by decide, by decide, by decide, by decide, by decide, rfl⟩,
    (C18_select_failure_returns_zero selectErrWorld zeroMem 0 2 0 [0x07]
      [Poll.data 0 [0x08]] (by decide) (by decide) (by decide) (by decide) (by decide)
      rfl).1,
    by decide, by decide, by decide⟩

/-- C19: `hexStrToBA` does not terminate on every string.  At a character that is
neither a space nor a hex digit an iteration leaves the index (and everything else) as
it was, and on a string that contains such a character the function never returns,
whatever the number of iterations allowed. -/
theorem C19_hexStrToBA_never_returns_on_bad_character (hexStr : List Nat) (val : Mem)
    (j : Nat) (hj : j < hexStr.length) (hsp : hexStr.getD j 0 ≠ 0x20)
    (hhex : isHexDigit (hexStr.getD j 0) = false) :
    (∀ count v, hexStrToBA_step hexStr ⟨j, count, v⟩ = ⟨j, count, v⟩) ∧
    ∀ fuel, hexStrToBA fuel hexStr val = none := by
  constructor
  · intro count v
    simp only [hexStrToBA_step, hsp, hhex, if_false, Bool.false_eq_true]
  · intro fuel
    simp [hexStrToBA, hexStrToBA_loop_stuck hexStr j hj hsp hhex fuel ⟨0, 0, val⟩
      (Nat.zero_le _)]

/-- C19 (witness): the argument `1g` (characters 0x31, 0x67). -/
theorem C19_hexStrToBA_never_returns_on_bad_character_witness :
    (1 < ([0x31, 0x67] : List Nat).length ∧ ([0x31, 0x67] : List Nat).getD 1 0 ≠ 0x20 ∧
      isHexDigit (([0x31, 0x67] : List Nat).getD 1 0) = false) ∧
    (∀ count v, hexStrToBA_step [0x31, 0x67] ⟨1, count, v⟩ = ⟨1, count, v⟩) ∧
    ∀ fuel, hexStrToBA fuel [0x31, 0x67] zeroMem = none :=
  ⟨⟨by decide, by decide, by decide⟩,
    C19_hexStrToBA_never_returns_on_bad_character [0x31, 0x67] zeroMem 1 (by decide)
      (by decide) (by decide)⟩

/-- C20: take at most 255 bytes, write each as two hex digits, every digit in upper or
lower case, with single spaces between them: `hexStrToBA` returns (one loop test per
character and one more are enough) the number of bytes and has stored exactly these
bytes in `val`, in order.  An item may also be a lone hex digit between the spaces: it
is stored as the byte with its value, 0..15. -/
theorem C20_hex_parsing_round_trip (items : List HexItem) (val : Mem) (fuel : Nat)
    (hlen : items.length ≤ 255) (hok : ∀ t ∈ items, t.ok = true)
    (hfuel : (hexLine items).length < fuel) :
    hexStrToBA fuel (hexLine items) val
      = some (items.length, store val 0 (items.map HexItem.value)) := by
  have h := hexLoop_items items [] 0 val fuel hok (by omega) hfuel
  simp only [List.nil_append, List.length_nil, Nat.zero_add] at h
  simp only [hexStrToBA, h, Option.map_some']

/-- C20 (witness): the string `Aa 7 05` gives the three bytes `0xAA, 0x07, 0x05`. -/
theorem C20_hex_parsing_round_trip_witness :
    (sampleItems.length ≤ 255 ∧ (∀ t ∈ sampleItems, t.ok = true) ∧
      (hexLine sampleItems).length < 8) ∧
    hexStrToBA 8 (hexLine sampleItems) zeroMem
      = some (sampleItems.length, store zeroMem 0 (sampleItems.map HexItem.value)) ∧
    hexLine sampleItems = [0x41, 0x61, 0x20, 0x37, 0x20, 0x30, 0x35] ∧
    (hexStrToBA 8 [0x41, 0x61, 0x20, 0x37, 0x20, 0x30, 0x35] zeroMem).map
        (fun r => (r.1, window r.2 0 3)) = some (3, [0xAA, 0x07, 0x05]) :=
  ⟨⟨by decide, by decide, by decide⟩,
    C20_hex_parsing_round_trip sampleItems zeroMem 8 (by decide) (by decide) (by decide),
    by decide, by decide⟩

end USAPI
